import Mathlib

/-!  Verification of the mcp-template scaffolding core. -/

/-- JS strings are sequences of UTF-16 code units; we model them as lists of
natural numbers (code points, ASCII for all inputs of interest). -/
abbrev JsStr := List Nat

/-- Interpret a Lean string literal as a JS string (list of code units). -/
def jstr (s : String) : JsStr := s.data.map Char.toNat

example : jstr "ab" = [97, 98] := by decide

/-! ### Case converters (src/scripts/utils.ts)

`splitWordsBySpaceHyphendUnderscoreOrDot` in the source is
`str.trim().split(/[-_\s.]+/).filter(w => w.length > 0)`: the maximal runs of
non-separator characters, where a separator is `-`, `_`, `.` or whitespace.
The case mappings model `toLowerCase`/`toUpperCase` on ASCII letters (all
characters the scaffolder manipulates); other code points are fixed. -/

/-- Whitespace code units matched by the JS `\s` class (ASCII part). -/
def isWsCode (c : Nat) : Bool :=
  c = 32 || c = 9 || c = 10 || c = 11 || c = 12 || c = 13

/-- Characters of the separator class `[-_\s.]`. -/
def isSepCode (c : Nat) : Bool :=
  c = 45 || c = 95 || c = 46 || isWsCode c

/-- `toLowerCase` on one code unit (ASCII). -/
def lowerCode (c : Nat) : Nat := if 65 ≤ c ∧ c ≤ 90 then c + 32 else c

/-- `toUpperCase` on one code unit (ASCII). -/
def upperCode (c : Nat) : Nat := if 97 ≤ c ∧ c ≤ 122 then c - 32 else c

/-- The regex test `/[a-z]/` on one code unit. -/
def isLowerAlpha (c : Nat) : Bool := 97 ≤ c && c ≤ 122

/-- The regex test `/[A-Z]/` on one code unit. -/
def isUpperAlpha (c : Nat) : Bool := 65 ≤ c && c ≤ 90

/-- Worker for word splitting: `acc` holds the current word, reversed. -/
def splitWordsAux : JsStr → JsStr → List JsStr
  | [], acc => if acc = [] then [] else [acc.reverse]
  | c :: cs, acc =>
    if isSepCode c then
      if acc = [] then splitWordsAux cs [] else acc.reverse :: splitWordsAux cs []
    else splitWordsAux cs (c :: acc)

/-- `splitWordsBySpaceHyphendUnderscoreOrDot`: split on runs of `[-_\s.]+`,
dropping empty tokens (the trim in the source only removes leading/trailing
whitespace, which the empty-token filter removes anyway). -/
def splitWords (s : JsStr) : List JsStr := splitWordsAux s []

/-- `/[a-z]/.test(w)` -/
def hasLower (w : JsStr) : Bool := w.any isLowerAlpha

/-- `/[A-Z]/.test(w)` -/
def hasUpper (w : JsStr) : Bool := w.any isUpperAlpha

/-- `word.charAt(0).toUpperCase() + word.slice(1).toLowerCase()` -/
def capitalizeWord : JsStr → JsStr
  | [] => []
  | c :: rest => upperCode c :: rest.map lowerCode

/-- `word.charAt(0).toUpperCase() + word.slice(1)` (casing preserved). -/
def upperFirst : JsStr → JsStr
  | [] => []
  | c :: rest => upperCode c :: rest

/-- `toPascalCase` (src/scripts/utils.ts, the active variant): if the input is
a single word with mixed case, preserve it and upper-case only the first
character; otherwise capitalize each word and join.  For a singleton word list
the generic `words.map(...).join('')` equals `capitalizeWord w`. -/
def toPascalCase (s : JsStr) : JsStr :=
  match splitWords s with
  | [w] => if hasLower w && hasUpper w then upperFirst w else capitalizeWord w
  | ws => (ws.map capitalizeWord).flatten

/-- First-word worker of `toCamelCase`: subsequent words are lower-cased and
then capitalized (`lower.charAt(0).toUpperCase() + lower.slice(1)`). -/
def camelTailWord (w : JsStr) : JsStr := upperFirst (w.map lowerCode)

/-- `toCamelCase`: first word fully lower-cased, later words lower-cased then
capitalized, joined with no separator. -/
def toCamelCase (s : JsStr) : JsStr :=
  match splitWords s with
  | [] => []
  | w :: ws => w.map lowerCode ++ (ws.map camelTailWord).flatten

/-- `toKebabCase`: lower-case every word, join with `-` (code 45). -/
def joinSep (sep : Nat) : List JsStr → JsStr
  | [] => []
  | [w] => w
  | w :: ws => w ++ sep :: joinSep sep ws

def toKebabCase (s : JsStr) : JsStr :=
  joinSep 45 ((splitWords s).map (List.map lowerCode))

/-- `toSnakeCase`: lower-case every word, join with `_` (code 95). -/
def toSnakeCase (s : JsStr) : JsStr :=
  joinSep 95 ((splitWords s).map (List.map lowerCode))

/-- `str.toUpperCase()` (used for env-var names). -/
def toUpperCaseStr (s : JsStr) : JsStr := s.map upperCode

-- sanity checks against the spec's §8 cross-case examples
example : toKebabCase (jstr "Weather Data") = jstr "weather-data" := by decide
example : toPascalCase (jstr "weather-data") = jstr "WeatherData" := by decide
example : toCamelCase (jstr "Weather Data") = jstr "weatherData" := by decide
example : toSnakeCase (jstr "Weather Data") = jstr "weather_data" := by decide
example : toUpperCaseStr (jstr "get_forecast") = jstr "GET_FORECAST" := by decide
example : toPascalCase (jstr "getForecast") = jstr "GetForecast" := by decide
example : toCamelCase (jstr "get-forecast") = jstr "getForecast" := by decide
example : toCamelCase (jstr "getForecast") = jstr "getforecast" := by decide
example : toCamelCase (jstr "createOrder") = jstr "createorder" := by decide
example : toPascalCase (jstr "createorder") = jstr "Createorder" := by decide
example : toPascalCase (jstr "aB") = jstr "AB" := by decide
example : toPascalCase (jstr "AB") = jstr "Ab" := by decide

/-! ### Lemmas about the character classes -/

lemma lowerCode_lowerCode (c : Nat) : lowerCode (lowerCode c) = lowerCode c := by
  unfold lowerCode
  split_ifs <;> omega

lemma lowerCode_not_sep {c : Nat} (h : isSepCode c = false) :
    isSepCode (lowerCode c) = false := by
  simp [isSepCode, isWsCode] at h ⊢
  unfold lowerCode
  split_ifs <;> omega

lemma upperCode_not_sep {c : Nat} (h : isSepCode c = false) :
    isSepCode (upperCode c) = false := by
  simp [isSepCode, isWsCode] at h ⊢
  unfold upperCode
  split_ifs <;> omega

lemma upperCode_not_lower (c : Nat) : isLowerAlpha (upperCode c) = false := by
  simp [isLowerAlpha]
  unfold upperCode
  split_ifs <;> omega

lemma upperCode_eq_self {c : Nat} (h : isLowerAlpha c = false) : upperCode c = c := by
  simp [isLowerAlpha] at h
  unfold upperCode
  split_ifs <;> omega

lemma lowerCode_eq_self {c : Nat} (h : isUpperAlpha c = false) : lowerCode c = c := by
  simp [isUpperAlpha] at h
  unfold lowerCode
  split_ifs <;> omega

lemma lowerCode_not_upper (c : Nat) : isUpperAlpha (lowerCode c) = false := by
  simp [isUpperAlpha]
  unfold lowerCode
  split_ifs <;> omega

/-! ### Lemmas about word splitting -/

/-- Every word produced by the splitter is nonempty and separator-free. -/
lemma splitWordsAux_words :
    ∀ (s acc : JsStr), (∀ c ∈ acc, isSepCode c = false) →
      ∀ w ∈ splitWordsAux s acc, w ≠ [] ∧ ∀ c ∈ w, isSepCode c = false
  | [], acc, hacc => by
    by_cases hemp : acc = []
    · simp [splitWordsAux, hemp]
    · intro w hw
      simp only [splitWordsAux, if_neg hemp, List.mem_singleton] at hw
      subst hw
      exact ⟨by simpa using hemp, fun c hc => hacc c (by simpa using hc)⟩
  | c :: cs, acc, hacc => by
    by_cases hsep : isSepCode c
    · by_cases hemp : acc = []
      · simp only [splitWordsAux, hsep, if_true, hemp, if_pos]
        exact splitWordsAux_words cs [] (by simp)
      · simp only [splitWordsAux, hsep, if_true, if_neg hemp]
        intro w hw
        rcases List.mem_cons.mp hw with h | h
        · subst h
          exact ⟨by simpa using hemp, fun x hx => hacc x (by simpa using hx)⟩
        · exact splitWordsAux_words cs [] (by simp) w h
    · simp only [Bool.not_eq_true] at hsep
      simp only [splitWordsAux, hsep, Bool.false_eq_true, if_false]
      refine splitWordsAux_words cs (c :: acc) ?_
      intro x hx
      rcases List.mem_cons.mp hx with h | h
      · subst h; exact hsep
      · exact hacc x h

lemma splitWords_words {s : JsStr} :
    ∀ w ∈ splitWords s, w ≠ [] ∧ ∀ c ∈ w, isSepCode c = false :=
  splitWordsAux_words s [] (by simp)

/-- On a separator-free suffix the splitter just extends the accumulator. -/
lemma splitWordsAux_all_nonsep :
    ∀ (s acc : JsStr), (∀ c ∈ s, isSepCode c = false) → acc ≠ [] ∨ s ≠ [] →
      splitWordsAux s acc = [acc.reverse ++ s]
  | [], acc, _, hne => by
    have : acc ≠ [] := by
      rcases hne with h | h
      · exact h
      · simp at h
    simp [splitWordsAux, this]
  | c :: cs, acc, hs, _ => by
    have hc : isSepCode c = false := hs c (by simp)
    simp only [splitWordsAux, hc, Bool.false_eq_true, if_false]
    rw [splitWordsAux_all_nonsep cs (c :: acc)
      (fun x hx => hs x (by simp [hx])) (Or.inl (by simp))]
    simp

/-- A nonempty separator-free string splits into itself. -/
lemma splitWords_sepFree {s : JsStr} (h : ∀ c ∈ s, isSepCode c = false)
    (hne : s ≠ []) : splitWords s = [s] := by
  unfold splitWords
  rw [splitWordsAux_all_nonsep s [] h (Or.inr hne)]
  simp

lemma splitWordsAux_append_word :
    ∀ (w : JsStr), (∀ c ∈ w, isSepCode c = false) → ∀ (s acc : JsStr),
      splitWordsAux (w ++ s) acc = splitWordsAux s (w.reverse ++ acc)
  | [], _, s, acc => by simp
  | c :: w', hw, s, acc => by
    have hc : isSepCode c = false := hw c (by simp)
    have step : splitWordsAux ((c :: w') ++ s) acc
        = splitWordsAux (w' ++ s) (c :: acc) := by
      show splitWordsAux (c :: (w' ++ s)) acc = _
      simp only [splitWordsAux, hc, Bool.false_eq_true, if_false]
    rw [step, splitWordsAux_append_word w' (fun x hx => hw x (by simp [hx])) s (c :: acc)]
    simp

lemma splitWordsAux_sep_cons {c : Nat} (h : isSepCode c = true) (s acc : JsStr) :
    splitWordsAux (c :: s) acc =
      if acc = [] then splitWordsAux s [] else acc.reverse :: splitWordsAux s [] := by
  simp only [splitWordsAux, h, if_true]

/-- Splitting a separator-joined list of nonempty separator-free words
recovers the words. -/
lemma splitWords_joinSep {sep : Nat} (hsep : isSepCode sep = true) :
    ∀ (ws : List JsStr), (∀ w ∈ ws, w ≠ [] ∧ ∀ c ∈ w, isSepCode c = false) →
      splitWords (joinSep sep ws) = ws
  | [], _ => by simp [splitWords, joinSep, splitWordsAux]
  | [w], h => by
    obtain ⟨hne, hfree⟩ := h w (by simp)
    simpa [joinSep] using splitWords_sepFree hfree hne
  | w :: w' :: ws, h => by
    obtain ⟨hne, hfree⟩ := h w (by simp)
    show splitWords (w ++ sep :: joinSep sep (w' :: ws)) = _
    unfold splitWords
    rw [splitWordsAux_append_word w hfree]
    rw [splitWordsAux_sep_cons hsep]
    have hne' : (w.reverse ++ ([] : JsStr)) ≠ [] := by simp [hne]
    simp only [if_neg hne']
    have ih := splitWords_joinSep hsep (w' :: ws) (fun x hx => h x (by simp [hx]))
    unfold splitWords at ih
    rw [ih]
    simp

/-! ### Output shape of the converters -/

lemma map_lower_sepFree {w : JsStr} (h : ∀ c ∈ w, isSepCode c = false) :
    ∀ c ∈ w.map lowerCode, isSepCode c = false := by
  intro c hc
  rcases List.mem_map.mp hc with ⟨a, ha, rfl⟩
  exact lowerCode_not_sep (h a ha)

lemma map_lower_idem (w : JsStr) : (w.map lowerCode).map lowerCode = w.map lowerCode := by
  rw [List.map_map]
  exact List.map_congr_left (fun c _ => lowerCode_lowerCode c)

lemma toKebabCase_idem (x : JsStr) : toKebabCase (toKebabCase x) = toKebabCase x := by
  unfold toKebabCase
  have hw : ∀ w ∈ (splitWords x).map (List.map lowerCode),
      w ≠ [] ∧ ∀ c ∈ w, isSepCode c = false := by
    intro w hw
    rcases List.mem_map.mp hw with ⟨a, ha, rfl⟩
    obtain ⟨hne, hfree⟩ := splitWords_words a ha
    exact ⟨by simpa using hne, map_lower_sepFree hfree⟩
  rw [splitWords_joinSep (by decide) _ hw]
  congr 1
  rw [List.map_map]
  exact List.map_congr_left (fun w _ => map_lower_idem w)

lemma toSnakeCase_idem (x : JsStr) : toSnakeCase (toSnakeCase x) = toSnakeCase x := by
  unfold toSnakeCase
  have hw : ∀ w ∈ (splitWords x).map (List.map lowerCode),
      w ≠ [] ∧ ∀ c ∈ w, isSepCode c = false := by
    intro w hw
    rcases List.mem_map.mp hw with ⟨a, ha, rfl⟩
    obtain ⟨hne, hfree⟩ := splitWords_words a ha
    exact ⟨by simpa using hne, map_lower_sepFree hfree⟩
  rw [splitWords_joinSep (by decide) _ hw]
  congr 1
  rw [List.map_map]
  exact List.map_congr_left (fun w _ => map_lower_idem w)

lemma capitalizeWord_sepFree {w : JsStr} (h : ∀ c ∈ w, isSepCode c = false) :
    ∀ c ∈ capitalizeWord w, isSepCode c = false := by
  cases w with
  | nil => simp [capitalizeWord]
  | cons a rest =>
    intro c hc
    simp only [capitalizeWord, List.mem_cons] at hc
    rcases hc with h1 | h1
    · subst h1; exact upperCode_not_sep (h a (by simp))
    · rcases List.mem_map.mp h1 with ⟨b, hb, rfl⟩
      exact lowerCode_not_sep (h b (by simp [hb]))

lemma upperFirst_sepFree {w : JsStr} (h : ∀ c ∈ w, isSepCode c = false) :
    ∀ c ∈ upperFirst w, isSepCode c = false := by
  cases w with
  | nil => simp [upperFirst]
  | cons a rest =>
    intro c hc
    simp only [upperFirst, List.mem_cons] at hc
    rcases hc with h1 | h1
    · subst h1; exact upperCode_not_sep (h a (by simp))
    · exact h c (by simp [h1])

lemma toPascalCase_sepFree (s : JsStr) :
    ∀ c ∈ toPascalCase s, isSepCode c = false := by
  unfold toPascalCase
  cases hs : splitWords s with
  | nil => simp
  | cons w ws =>
    have hmemw := splitWords_words (s := s)
    rw [hs] at hmemw
    cases ws with
    | nil =>
      obtain ⟨-, hfree⟩ := hmemw w (by simp)
      by_cases hmix : hasLower w && hasUpper w
      · simpa [hmix] using upperFirst_sepFree hfree
      · simp only [Bool.not_eq_true] at hmix
        simpa [hmix] using capitalizeWord_sepFree hfree
    | cons w' ws' =>
      intro c hc
      simp only [List.mem_flatten, List.mem_map] at hc
      rcases hc with ⟨piece, ⟨a, ha, rfl⟩, hcp⟩
      obtain ⟨-, hfree⟩ := hmemw a ha
      exact capitalizeWord_sepFree hfree c hcp

lemma toPascalCase_head_not_lower {s : JsStr} {c : Nat} {rest : JsStr}
    (h : toPascalCase s = c :: rest) : isLowerAlpha c = false := by
  unfold toPascalCase at h
  cases hs : splitWords s with
  | nil => rw [hs] at h; simp at h
  | cons w ws =>
    have hmemw := splitWords_words (s := s)
    rw [hs] at hmemw
    rw [hs] at h
    cases ws with
    | nil =>
      obtain ⟨hne, -⟩ := hmemw w (by simp)
      obtain ⟨a, arest, rfl⟩ := List.exists_cons_of_ne_nil hne
      by_cases hmix : hasLower (a :: arest) && hasUpper (a :: arest)
      · simp only [hmix, if_true, upperFirst] at h
        rw [List.cons.injEq] at h
        rw [← h.1]
        exact upperCode_not_lower a
      · simp only [Bool.not_eq_true] at hmix
        simp only [hmix, Bool.false_eq_true, if_false, capitalizeWord] at h
        rw [List.cons.injEq] at h
        rw [← h.1]
        exact upperCode_not_lower a
    | cons w' ws' =>
      obtain ⟨hne, -⟩ := hmemw w (by simp)
      obtain ⟨a, arest, rfl⟩ := List.exists_cons_of_ne_nil hne
      simp only [List.map_cons, capitalizeWord, List.flatten_cons, List.cons_append,
        List.cons.injEq] at h
      rw [← h.1]
      exact upperCode_not_lower a

lemma capitalizeWord_eq_self {c : Nat} {rest : JsStr} (hc : isLowerAlpha c = false)
    (hrest : ∀ x ∈ rest, isUpperAlpha x = false) :
    capitalizeWord (c :: rest) = c :: rest := by
  simp only [capitalizeWord, upperCode_eq_self hc, List.cons.injEq, true_and]
  calc rest.map lowerCode = rest.map id := List.map_congr_left
        (fun x hx => lowerCode_eq_self (hrest x hx))
    _ = rest := List.map_id rest

/-- A second Pascal pass is the identity when the Pascal form still contains a
lower-case letter, and otherwise lower-cases everything after the first
character. -/
lemma toPascalCase_toPascalCase (x : JsStr) :
    toPascalCase (toPascalCase x) =
      if hasLower (toPascalCase x) then toPascalCase x
      else capitalizeWord (toPascalCase x) := by
  cases ht : toPascalCase x with
  | nil => simp [toPascalCase, splitWords, splitWordsAux, hasLower, capitalizeWord]
  | cons c rest =>
    have hsf : ∀ a ∈ toPascalCase x, isSepCode a = false := toPascalCase_sepFree x
    rw [ht] at hsf
    have hc : isLowerAlpha c = false := toPascalCase_head_not_lower ht
    have hsplit : splitWords (c :: rest) = [c :: rest] :=
      splitWords_sepFree hsf (by simp)
    conv_lhs => rw [toPascalCase, hsplit]
    by_cases hL : hasLower (c :: rest)
    · by_cases hU : hasUpper (c :: rest)
      · simp only [hL, hU, Bool.and_self, if_true, upperFirst, upperCode_eq_self hc]
      · simp only [Bool.not_eq_true] at hU
        have hrest : ∀ x ∈ rest, isUpperAlpha x = false := by
          intro x hx
          by_contra hcontra
          simp only [Bool.not_eq_false] at hcontra
          have : hasUpper (c :: rest) = true := by
            simp [hasUpper, List.any_eq_true]
            exact Or.inr ⟨x, hx, hcontra⟩
          rw [this] at hU
          simp at hU
        simp only [hU, Bool.and_false, Bool.false_eq_true, if_false, hL, if_true]
        exact capitalizeWord_eq_self hc hrest
    · simp only [Bool.not_eq_true] at hL
      simp only [hL, Bool.false_and, Bool.false_eq_true, if_false]

lemma camelTailWord_sepFree {w : JsStr} (h : ∀ c ∈ w, isSepCode c = false) :
    ∀ c ∈ camelTailWord w, isSepCode c = false :=
  upperFirst_sepFree (map_lower_sepFree h)

lemma toCamelCase_sepFree (s : JsStr) :
    ∀ c ∈ toCamelCase s, isSepCode c = false := by
  unfold toCamelCase
  cases hs : splitWords s with
  | nil => simp
  | cons w ws =>
    have hmemw := splitWords_words (s := s)
    rw [hs] at hmemw
    intro c hc
    rcases List.mem_append.mp hc with h1 | h1
    · exact map_lower_sepFree (hmemw w (by simp)).2 c h1
    · simp only [List.mem_flatten, List.mem_map] at h1
      rcases h1 with ⟨piece, ⟨a, ha, rfl⟩, hcp⟩
      exact camelTailWord_sepFree (hmemw a (by simp [ha])).2 c hcp

/-- A second camel pass lower-cases the whole camel form. -/
lemma toCamelCase_toCamelCase (x : JsStr) :
    toCamelCase (toCamelCase x) = (toCamelCase x).map lowerCode := by
  cases ht : toCamelCase x with
  | nil => simp [toCamelCase, splitWords, splitWordsAux]
  | cons c rest =>
    have hsf : ∀ a ∈ toCamelCase x, isSepCode a = false := toCamelCase_sepFree x
    rw [ht] at hsf
    have hsplit : splitWords (c :: rest) = [c :: rest] :=
      splitWords_sepFree hsf (by simp)
    conv_lhs => rw [toCamelCase, hsplit]
    simp

/-- **C1** (amended).  Idempotence `convert(convert(x,F),F) = convert(x,F)`
holds for the Kebab and Snake forms for every input, but not for Pascal and
Camel: a second Pascal pass equals the first exactly when the Pascal form
still contains a lower-case letter (otherwise it lower-cases everything after
the first character), and a second Camel pass always lower-cases the whole
camel form (which differs from it whenever the first pass produced an
internal capital). -/
theorem case_conversion_idempotence_amended (x : JsStr) :
    toKebabCase (toKebabCase x) = toKebabCase x
    ∧ toSnakeCase (toSnakeCase x) = toSnakeCase x
    ∧ toPascalCase (toPascalCase x) =
        (if hasLower (toPascalCase x) then toPascalCase x
         else capitalizeWord (toPascalCase x))
    ∧ toCamelCase (toCamelCase x) = (toCamelCase x).map lowerCode :=
  ⟨toKebabCase_idem x, toSnakeCase_idem x, toPascalCase_toPascalCase x,
    toCamelCase_toCamelCase x⟩

/-- **C1** (counterexample).  The claim "conversion is idempotent for every
case form" fails for Camel: `toCamelCase "get-forecast" = "getForecast"`, but
converting that output again yields `"getforecast"`.  (Pascal fails too:
`toPascalCase "aB" = "AB"` while `toPascalCase "AB" = "Ab"`.) -/
theorem case_conversion_idempotence_cex :
    toCamelCase (toCamelCase (jstr "get-forecast")) ≠ toCamelCase (jstr "get-forecast")
    ∧ toCamelCase (jstr "get-forecast") = jstr "getForecast"
    ∧ toCamelCase (toCamelCase (jstr "get-forecast")) = jstr "getforecast"
    ∧ toPascalCase (toPascalCase (jstr "aB")) ≠ toPascalCase (jstr "aB") := by
  decide

/-- **C2**.  Single-token Pascal preservation: when the input splits into a
single word containing both a lower-case and an upper-case letter,
`toPascalCase` upper-cases only the first character and keeps the rest of the
word unchanged; in particular `toPascalCase "getForecast" = "GetForecast"`,
not `"Getforecast"`. -/
theorem toPascalCase_single_token_preservation (s w : JsStr)
    (h1 : splitWords s = [w]) (h2 : hasLower w = true) (h3 : hasUpper w = true) :
    toPascalCase s = upperFirst w
    ∧ (toPascalCase s).tail = w.tail
    ∧ toPascalCase (jstr "getForecast") = jstr "GetForecast"
    ∧ jstr "GetForecast" ≠ jstr "Getforecast" := by
  have hmain : toPascalCase s = upperFirst w := by
    rw [toPascalCase, h1]
    simp [h2, h3]
  refine ⟨hmain, ?_, by decide, by decide⟩
  rw [hmain]
  cases w <;> simp [upperFirst]

/-- Witness for C2 at the input `"getForecast"`. -/
theorem toPascalCase_single_token_preservation_witness :
    toPascalCase (jstr "getForecast") = upperFirst (jstr "getForecast") :=
  (toPascalCase_single_token_preservation (jstr "getForecast") (jstr "getForecast")
    (by decide) (by decide) (by decide)).1

/-! ### The substitution rewriter (`replaceInFile`, startup-project/script.ts)

`content.split(search).join(replace)` replaces every non-overlapping,
left-to-right occurrence of `search` by `replace`.  We implement the scan
with an explicit fuel argument (always called with `fuel = s.length`, enough
for the whole scan) so that the function stays structurally recursive and
kernel-computable. -/

def replaceAllFuel (needle repl : JsStr) : Nat → JsStr → JsStr
  | _, [] => []
  | 0, s => s
  | fuel + 1, c :: rest =>
    if needle.isPrefixOf (c :: rest) then
      repl ++ replaceAllFuel needle repl fuel (rest.drop (needle.length - 1))
    else c :: replaceAllFuel needle repl fuel rest

/-- Global substring replacement, `s.split(needle).join(repl)`.  The rules in
the repository never use an empty search string (JS `split('')` behaves
differently); an empty needle is mapped to the identity. -/
def replaceAll (needle repl s : JsStr) : JsStr :=
  match needle with
  | [] => s
  | _ :: _ => replaceAllFuel needle repl s.length s

/-- `haystack.includes(needle)` for nonempty needles. -/
def containsSub (needle : JsStr) : JsStr → Bool
  | [] => needle.isEmpty
  | c :: rest => needle.isPrefixOf (c :: rest) || containsSub needle rest

example : replaceAll (jstr "a") (jstr "aa") (jstr "a") = jstr "aa" := by decide
example : replaceAll (jstr "ab") (jstr "b") (jstr "aab") = jstr "ab" := by decide
example : replaceAll (jstr "aa") (jstr "b") (jstr "aaa") = jstr "ba" := by decide
example : containsSub (jstr "ab") (jstr "xabx") = true := by decide
example : containsSub (jstr "ab") (jstr "axbx") = false := by decide

/-- If the needle does not occur in `s`, the scan returns `s` unchanged. -/
lemma replaceAllFuel_of_not_contains {needle repl : JsStr} :
    ∀ (fuel : Nat) (s : JsStr), containsSub needle s = false →
      replaceAllFuel needle repl fuel s = s
  | _, [], _ => by cases ‹Nat› <;> rfl
  | 0, _ :: _, _ => rfl
  | fuel + 1, c :: rest, h => by
    simp only [containsSub, Bool.or_eq_false_iff] at h
    simp only [replaceAllFuel, h.1, Bool.false_eq_true, if_false]
    rw [replaceAllFuel_of_not_contains fuel rest h.2]

lemma replaceAll_of_not_contains {needle repl s : JsStr}
    (h : containsSub needle s = false) : replaceAll needle repl s = s := by
  cases needle with
  | nil => rfl
  | cons n ns => exact replaceAllFuel_of_not_contains _ s h

/-- The rule loop of `replaceInFile`: apply each rule in order, accumulating
the `hasChanges` flag (`true` as soon as some rule altered the text). -/
def applyRulesGo (rules : List (JsStr × JsStr)) (acc : JsStr × Bool) : JsStr × Bool :=
  match rules with
  | [] => acc
  | r :: rs =>
    let next := replaceAll r.1 r.2 acc.1
    applyRulesGo rs (next, acc.2 || decide (next ≠ acc.1))

/-- `replaceInFile` on one file's text: final text plus the `hasChanges` flag;
the source writes the file back exactly when the flag is `true`. -/
def applyRulesFlag (rules : List (JsStr × JsStr)) (content : JsStr) : JsStr × Bool :=
  applyRulesGo rules (content, false)

lemma applyRulesGo_flag_true :
    ∀ (rules : List (JsStr × JsStr)) (c : JsStr),
      (applyRulesGo rules (c, true)).2 = true
  | [], _ => rfl
  | r :: rs, c => by
    simp only [applyRulesGo, Bool.true_or]
    exact applyRulesGo_flag_true rs _

lemma applyRulesGo_cons (r : JsStr × JsStr) (rs : List (JsStr × JsStr))
    (acc : JsStr × Bool) :
    applyRulesGo (r :: rs) acc
      = applyRulesGo rs (replaceAll r.1 r.2 acc.1,
          acc.2 || decide (replaceAll r.1 r.2 acc.1 ≠ acc.1)) := rfl

/-- If the loop reports no change, the text is the original one. -/
lemma applyRulesFlag_false_eq :
    ∀ (rules : List (JsStr × JsStr)) (c : JsStr),
      (applyRulesFlag rules c).2 = false → (applyRulesFlag rules c).1 = c
  | [], _, _ => rfl
  | r :: rs, c, h => by
    unfold applyRulesFlag at h ⊢
    rw [applyRulesGo_cons] at h ⊢
    by_cases hch : replaceAll r.1 r.2 c = c
    · simp only [hch, ne_eq, not_true_eq_false, Bool.or_false] at h ⊢
      simp only [show (decide False) = false from rfl] at h ⊢
      exact applyRulesFlag_false_eq rs c h
    · exfalso
      simp only [ne_eq, hch, not_false_eq_true, Bool.or_true] at h
      simp only [show (decide True) = true from rfl] at h
      rw [show (false || true) = true from rfl] at h
      rw [applyRulesGo_flag_true] at h
      simp at h

/-- If no search string occurs in `c`, the whole loop is the identity with a
`false` flag. -/
lemma applyRulesFlag_fixed (rules : List (JsStr × JsStr)) (c : JsStr)
    (h : ∀ r ∈ rules, containsSub r.1 c = false) :
    applyRulesFlag rules c = (c, false) := by
  induction rules with
  | nil => rfl
  | cons r rs ih =>
    have hr : replaceAll r.1 r.2 c = c := replaceAll_of_not_contains (h r (by simp))
    have e : applyRulesFlag (r :: rs) c = applyRulesFlag rs c := by
      unfold applyRulesFlag
      rw [applyRulesGo_cons]
      simp [hr]
    rw [e]
    exact ih (fun x hx => h x (by simp [hx]))

/-- **C6** (amended).  The rewriter writes back only when some rule changed
the text (a `false` flag implies the content is returned unchanged), and a
second run with the same rules is a no-op whenever none of the search strings
occurs in the first run's output.  (Unconditional idempotence fails when a
replacement reintroduces a search string, see the counterexample.) -/
theorem rewrite_noop_amended (rules : List (JsStr × JsStr)) (content : JsStr)
    (h : ∀ r ∈ rules, containsSub r.1 (applyRulesFlag rules content).1 = false) :
    (applyRulesFlag rules ((applyRulesFlag rules content).1)).2 = false
    ∧ (applyRulesFlag rules ((applyRulesFlag rules content).1)).1
        = (applyRulesFlag rules content).1
    ∧ ∀ (rules' : List (JsStr × JsStr)) (content' : JsStr),
        (applyRulesFlag rules' content').2 = false →
        (applyRulesFlag rules' content').1 = content' := by
  have hfix : applyRulesFlag rules ((applyRulesFlag rules content).1)
      = ((applyRulesFlag rules content).1, false) :=
    applyRulesFlag_fixed rules _ h
  exact ⟨by rw [hfix], by rw [hfix],
    fun rules' content' => applyRulesFlag_false_eq rules' content'⟩

/-- Witness for C6 (amended) with the concrete rule `example_tool: ↦ my_tool:`
already applied once. -/
theorem rewrite_noop_amended_witness :
    (applyRulesFlag [(jstr "example_tool:", jstr "my_tool:")]
        ((applyRulesFlag [(jstr "example_tool:", jstr "my_tool:")]
          (jstr "a example_tool: b")).1)).2 = false :=
  (rewrite_noop_amended [(jstr "example_tool:", jstr "my_tool:")]
    (jstr "a example_tool: b") (by decide)).1

/-- **C6** (counterexample).  "Running the rewriter a second time alters
nothing" fails for the rule `a ↦ aa` on the file `"a"`: the first run yields
`"aa"` and reports a change, and the second run yields `"aaaa"` and reports a
change again (`changed = true`, not `false`). -/
theorem rewrite_second_run_changes_cex :
    (applyRulesFlag [([97], [97, 97])] ((applyRulesFlag [([97], [97, 97])] [97]).1)).2
        = true
    ∧ (applyRulesFlag [([97], [97, 97])] [97]).1 = [97, 97]
    ∧ (applyRulesFlag [([97], [97, 97])] [97, 97]).1 = [97, 97, 97, 97] := by
  decide

/-! ### Anchored insertion into the tool registry (scaffold-tool/script.ts)

`updateMcpRegistry` runs
`content.replace(/(const tools: Record<string, ToolDefinition> = {[\s\S]*?)(\n})/m, cb)`.
Since the pattern begins with a literal anchor, the leftmost match starts at
the first occurrence of the anchor, and the lazy `[\s\S]*?` makes the captured
middle run to the first `"\n}"` after it; when either is absent there is no
match and the content is returned unchanged.  The callback `cb` receives
`p1 = anchor ++ middle` and splices the new entry before the `"\n}"`, first
inserting a comma after the last `}` of `p1` when the text following that
brace does not (after trimming) start with a comma. -/

/-- Split `s` at the first occurrence of `needle`:
`some (pre, post)` with `s = pre ++ needle ++ post`, `none` if absent. -/
def findSplit (needle : JsStr) : JsStr → Option (JsStr × JsStr)
  | [] => none
  | c :: rest =>
    if needle.isPrefixOf (c :: rest) then some ([], (c :: rest).drop needle.length)
    else
      match findSplit needle rest with
      | some (pre, post) => some (c :: pre, post)
      | none => none

lemma findSplit_eq {needle : JsStr} :
    ∀ {s pre post : JsStr}, findSplit needle s = some (pre, post) →
      s = pre ++ needle ++ post
  | [], pre, post, h => by simp [findSplit] at h
  | c :: rest, pre, post, h => by
    by_cases hpre : needle.isPrefixOf (c :: rest)
    · simp only [findSplit, hpre, if_true, Option.some.injEq, Prod.mk.injEq] at h
      obtain ⟨t, ht⟩ := List.isPrefixOf_iff_prefix.mp hpre
      rw [← h.1, ← h.2, List.nil_append, ← ht, List.drop_left]
    · simp only [findSplit, hpre, Bool.false_eq_true, if_false] at h
      cases hfs : findSplit needle rest with
      | none => rw [hfs] at h; simp at h
      | some pr =>
        obtain ⟨pre', post'⟩ := pr
        rw [hfs] at h
        simp only [Option.some.injEq, Prod.mk.injEq] at h
        rw [← h.1, ← h.2]
        have := findSplit_eq hfs
        simp [this]

/-- `String.indexOf` worker: index of the first occurrence of a code unit. -/
def firstIdx (c : Nat) : JsStr → Option Nat
  | [] => none
  | x :: xs => if x = c then some 0 else (firstIdx c xs).map (· + 1)

lemma firstIdx_append_of_some {c : Nat} :
    ∀ {l₁ : JsStr} {i : Nat}, firstIdx c l₁ = some i →
      ∀ (l₂ : JsStr), firstIdx c (l₁ ++ l₂) = some i
  | [], i, h, l₂ => by simp [firstIdx] at h
  | x :: xs, i, h, l₂ => by
    by_cases hx : x = c
    · simp_all [firstIdx]
    · simp only [firstIdx, hx, if_false, Option.map_eq_some'] at h
      obtain ⟨j, hj, rfl⟩ := h
      rw [List.cons_append]
      simp only [firstIdx, hx, if_false]
      rw [firstIdx_append_of_some hj l₂]
      rfl

lemma firstIdx_append_of_not_mem {c : Nat} :
    ∀ {l₁ : JsStr}, c ∉ l₁ → ∀ (l₂ : JsStr),
      firstIdx c (l₁ ++ l₂) = (firstIdx c l₂).map (· + l₁.length)
  | [], _, l₂ => by simp
  | x :: xs, h, l₂ => by
    have hx : ¬(x = c) := fun e => h (by simp [e])
    have hxs : c ∉ xs := fun e => h (by simp [e])
    rw [List.cons_append]
    simp only [firstIdx, hx, if_false]
    rw [firstIdx_append_of_not_mem hxs l₂]
    cases firstIdx c l₂ with
    | none => rfl
    | some j =>
      simp only [Option.map_some', Option.some.injEq, List.length_cons]
      omega

/-- `indexOf` with the JS `-1` sentinel. -/
def indexOfI (c : Nat) (s : JsStr) : Int :=
  ((firstIdx c s).map (fun i => (i : Int))).getD (-1)

/-- `lastIndexOf` with the JS `-1` sentinel. -/
def lastIndexOfI (c : Nat) (s : JsStr) : Int :=
  ((firstIdx c s.reverse).map (fun i => ((s.length - 1 - i : Nat) : Int))).getD (-1)

/-- `s.trimStart()` (ASCII whitespace). -/
def trimStart (s : JsStr) : JsStr := s.dropWhile (fun c => isWsCode c)

/-- `s.trim()` (ASCII whitespace). -/
def jsTrim (s : JsStr) : JsStr :=
  ((trimStart s).reverse.dropWhile (fun c => isWsCode c)).reverse

/-- The comma-repair step of the registry callback: if `p1` contains a `}`
after its first `{`, and the text following the last `}` does not start
(after trimming) with a comma, insert a comma right after that brace. -/
def commaFix (p1 : JsStr) : JsStr :=
  let li := lastIndexOfI 125 p1
  if li ≠ -1 ∧ li > indexOfI 123 p1 then
    if (jstr ",").isPrefixOf (jsTrim (p1.drop (li.toNat + 1))) then p1
    else p1.take (li.toNat + 1) ++ 44 :: p1.drop (li.toNat + 1)
  else p1

def toolsAnchor : JsStr := jstr "const tools: Record<string, ToolDefinition> = \x7b"

/-- The two-character terminator `"\n}"` of the tools object. -/
def nlBrace : JsStr := [10, 125]

/-- The anchored-insertion rewrite of `src/mcp/tools.ts`: locate the tools
object, apply the comma repair to the captured prefix, splice the new entry
before the closing `"\n}"`. -/
def appendToolEntry (content toolDef : JsStr) : JsStr :=
  match findSplit toolsAnchor content with
  | none => content
  | some (before, rest) =>
    match findSplit nlBrace rest with
    | none => content
    | some (mid, after) =>
      before ++ commaFix (toolsAnchor ++ mid) ++ toolDef ++ nlBrace ++ after

lemma lastIndexOfI_append_cons {X Y : JsStr} (h : (125 : Nat) ∉ Y) :
    lastIndexOfI 125 (X ++ 125 :: Y) = (X.length : Int) := by
  have hrev : (X ++ 125 :: Y).reverse = Y.reverse ++ 125 :: X.reverse := by simp
  have hy : (125 : Nat) ∉ Y.reverse := by simpa using h
  have h0 : firstIdx 125 ((125 : Nat) :: X.reverse) = some 0 := by simp [firstIdx]
  have hfi : firstIdx 125 (X ++ 125 :: Y).reverse = some Y.length := by
    rw [hrev, firstIdx_append_of_not_mem hy, h0]
    simp
  unfold lastIndexOfI
  rw [hfi]
  simp only [Option.map_some', Option.getD_some]
  have hlen : (X ++ 125 :: Y).length = X.length + Y.length + 1 := by
    simp
    omega
  rw [hlen]
  omega

lemma firstIdx_toolsAnchor : firstIdx 123 toolsAnchor = some 46 := by decide

lemma toolsAnchor_length : toolsAnchor.length = 47 := by decide

/-- Characterization of the comma repair on an anchored prefix whose last
entry ends with `}` followed by `M₂` (no further braces). -/
lemma commaFix_anchor (M₁ M₂ : JsStr) (h2 : (125 : Nat) ∉ M₂) :
    commaFix (toolsAnchor ++ M₁ ++ 125 :: M₂)
      = toolsAnchor ++ M₁ ++ 125 ::
          (if (jstr ",").isPrefixOf (jsTrim M₂) then M₂ else 44 :: M₂) := by
  have hx : toolsAnchor ++ M₁ ++ 125 :: M₂ = (toolsAnchor ++ M₁) ++ 125 :: M₂ := by
    simp
  have hlast : lastIndexOfI 125 (toolsAnchor ++ M₁ ++ 125 :: M₂)
      = ((toolsAnchor ++ M₁).length : Int) := by
    rw [hx]
    exact lastIndexOfI_append_cons h2
  have hfirst : indexOfI 123 (toolsAnchor ++ M₁ ++ 125 :: M₂) = (46 : Int) := by
    unfold indexOfI
    rw [List.append_assoc, firstIdx_append_of_some firstIdx_toolsAnchor]
    rfl
  have hlen : (toolsAnchor ++ M₁).length = 47 + M₁.length := by
    simp [toolsAnchor_length]
  have hlen2 : ((toolsAnchor ++ M₁) ++ [(125 : Nat)]).length
      = (toolsAnchor ++ M₁).length + 1 := by
    simp
    omega
  unfold commaFix
  rw [hlast, hfirst]
  have hcond : ((((toolsAnchor ++ M₁).length : Int)) ≠ -1)
      ∧ (((toolsAnchor ++ M₁).length : Int)) > (46 : Int) := by
    constructor
    · omega
    · rw [hlen]; omega
  rw [if_pos hcond]
  have htoNat : (((toolsAnchor ++ M₁).length : Int)).toNat = (toolsAnchor ++ M₁).length := by
    omega
  rw [htoNat]
  have hdrop : (toolsAnchor ++ M₁ ++ 125 :: M₂).drop ((toolsAnchor ++ M₁).length + 1) = M₂ := by
    rw [hx, show (125 : Nat) :: M₂ = [125] ++ M₂ from rfl, ← List.append_assoc]
    exact List.drop_left' hlen2
  have htake : (toolsAnchor ++ M₁ ++ 125 :: M₂).take ((toolsAnchor ++ M₁).length + 1)
      = (toolsAnchor ++ M₁) ++ [(125 : Nat)] := by
    rw [hx, show (125 : Nat) :: M₂ = [125] ++ M₂ from rfl, ← List.append_assoc]
    exact List.take_left' hlen2
  rw [hdrop, htake]
  cases hcomma : (jstr ",").isPrefixOf (jsTrim M₂) with
  | true => simp [hcomma]
  | false => simp [hcomma]

/-- Closed form of the anchored insertion when the tools object decomposes as
`B ++ anchor ++ M₁ ++ "}" ++ M₂ ++ "\n}" ++ S` with `M₂` brace-free (so the
shown `}` closes the last existing entry). -/
lemma appendToolEntry_anchor (content toolDef B M₁ M₂ S : JsStr)
    (h1 : findSplit toolsAnchor content = some (B, M₁ ++ 125 :: M₂ ++ nlBrace ++ S))
    (h2 : findSplit nlBrace (M₁ ++ 125 :: M₂ ++ nlBrace ++ S) = some (M₁ ++ 125 :: M₂, S))
    (h3 : (125 : Nat) ∉ M₂) :
    appendToolEntry content toolDef
      = B ++ toolsAnchor ++ M₁ ++ 125 ::
          ((if (jstr ",").isPrefixOf (jsTrim M₂) then M₂ else 44 :: M₂)
            ++ toolDef ++ nlBrace ++ S) := by
  simp only [appendToolEntry, h1, h2]
  have hassoc : toolsAnchor ++ (M₁ ++ 125 :: M₂) = toolsAnchor ++ M₁ ++ 125 :: M₂ := by
    simp
  rw [hassoc, commaFix_anchor M₁ M₂ h3]
  cases hcomma : (jstr ",").isPrefixOf (jsTrim M₂) with
  | true => simp [hcomma]
  | false => simp [hcomma]

/-- **C5**.  Comma-safety of the anchored registry insertion: when the tools
file decomposes as `B ++ anchor ++ M₁ ++ "}" ++ M₂ ++ "\n}" ++ S` with the
shown `}` the closing brace of the last existing entry (`M₂` brace-free), the
rewriter splices the new entry before the `"\n}"` and inserts a comma
immediately after that last closing brace exactly when the text after the
brace does not already start with a comma after trimming; when a comma is
already present none is added. -/
theorem registry_insert_comma_safety (content toolDef B M₁ M₂ S : JsStr)
    (h1 : findSplit toolsAnchor content = some (B, M₁ ++ 125 :: M₂ ++ nlBrace ++ S))
    (h2 : findSplit nlBrace (M₁ ++ 125 :: M₂ ++ nlBrace ++ S) = some (M₁ ++ 125 :: M₂, S))
    (h3 : (125 : Nat) ∉ M₂) :
    appendToolEntry content toolDef
      = B ++ toolsAnchor ++ M₁ ++ 125 ::
          ((if (jstr ",").isPrefixOf (jsTrim M₂) then M₂ else 44 :: M₂)
            ++ toolDef ++ nlBrace ++ S) :=
  appendToolEntry_anchor content toolDef B M₁ M₂ S h1 h2 h3

/-- Witness for C5: a registry whose single entry `e: {}` has no trailing
comma; the rewriter inserts one before splicing the new entry. -/
theorem registry_insert_comma_safety_witness :
    appendToolEntry
        (toolsAnchor ++ jstr "\n  e: \x7b" ++ 125 :: ([] : JsStr) ++ nlBrace ++ jstr "E")
        (jstr "\n  t,")
      = ([] : JsStr) ++ toolsAnchor ++ jstr "\n  e: \x7b" ++ 125 ::
          ((if (jstr ",").isPrefixOf (jsTrim ([] : JsStr)) then ([] : JsStr)
            else 44 :: ([] : JsStr))
            ++ jstr "\n  t," ++ nlBrace ++ jstr "E") :=
  registry_insert_comma_safety _ _ [] (jstr "\n  e: \x7b") [] (jstr "E")
    (by decide) (by decide) (by decide)

/-! ### Import de-duplication in the registry rewrite (C10)

`updateMcpRegistry` prepends the service import line only when the text
`import <ClassName>` is not already contained in the file, and then appends
the registry entry regardless. -/

/-- The containment test `content.includes("import " + className)`. -/
def importNeedle (className : JsStr) : JsStr := jstr "import " ++ className

/-- The full registry rewrite: conditional import prepend, then anchored
entry insertion.  `importLine` is the rendered import statement (its path
computation is irrelevant when the import is already present). -/
def updateMcpRegistryContent (className importLine toolDef content : JsStr) : JsStr :=
  let c1 := if containsSub (importNeedle className) content then content
            else importLine ++ content
  appendToolEntry c1 toolDef

/-- Number of occurrence positions of `needle` in a string. -/
def countOccurs (needle : JsStr) : JsStr → Nat
  | [] => 0
  | c :: rest => (if needle.isPrefixOf (c :: rest) then 1 else 0) + countOccurs needle rest

example : countOccurs (jstr "ab") (jstr "abcab") = 2 := by decide
example : countOccurs (jstr "aa") (jstr "aaa") = 2 := by decide

lemma isPrefixOf_false_of_not {l₁ l₂ : JsStr} (h : ¬ (l₁ <+: l₂)) :
    l₁.isPrefixOf l₂ = false := by
  cases hB : l₁.isPrefixOf l₂ with
  | false => rfl
  | true => exact absurd (List.isPrefixOf_iff_prefix.mp hB) h

/-- A prefix of `A ++ b :: B` avoiding the code `b` is a prefix of `A`. -/
lemma prefix_stop {b : Nat} :
    ∀ (A : JsStr) {needle B : JsStr}, b ∉ needle → needle <+: A ++ b :: B →
      needle <+: A
  | [], needle, B, hb, h => by
    cases needle with
    | nil => exact List.nil_prefix
    | cons n ns =>
      exfalso
      rw [List.nil_append] at h
      rcases List.cons_prefix_cons.mp h with ⟨rfl, -⟩
      exact hb (by simp)
  | a :: A', needle, B, hb, h => by
    cases needle with
    | nil => exact List.nil_prefix
    | cons n ns =>
      rw [List.cons_append] at h
      rcases List.cons_prefix_cons.mp h with ⟨rfl, h2⟩
      have hbns : b ∉ ns := fun e => hb (by simp [e])
      exact List.cons_prefix_cons.mpr ⟨rfl, prefix_stop A' hbns h2⟩

/-- Occurrences split across a boundary whose right side starts with a code
not occurring in the needle. -/
lemma countOccurs_append {needle : JsStr} {b : Nat} (hb : b ∉ needle) :
    ∀ (A B : JsStr), countOccurs needle (A ++ b :: B)
      = countOccurs needle A + countOccurs needle (b :: B)
  | [], B => by simp [countOccurs]
  | a :: A', B => by
    rw [List.cons_append]
    show (if needle.isPrefixOf (a :: (A' ++ b :: B)) then 1 else 0)
        + countOccurs needle (A' ++ b :: B) = _
    rw [countOccurs_append hb A' B]
    have hiff : needle.isPrefixOf (a :: (A' ++ b :: B)) = needle.isPrefixOf (a :: A') := by
      by_cases hp : needle <+: a :: A'
      · have h1 : needle <+: (a :: A') ++ b :: B := hp.trans (List.prefix_append _ _)
        rw [List.cons_append] at h1
        rw [List.isPrefixOf_iff_prefix.mpr h1, List.isPrefixOf_iff_prefix.mpr hp]
      · by_cases hq : needle <+: a :: (A' ++ b :: B)
        · exact absurd (prefix_stop (a :: A') hb (by rwa [List.cons_append])) hp
        · rw [isPrefixOf_false_of_not hq, isPrefixOf_false_of_not hp]
    rw [hiff]
    show _ = (if needle.isPrefixOf (a :: A') then 1 else 0) + countOccurs needle A' + _
    omega

lemma countOccurs_cons_of_head_ne {n b : Nat} {ns : JsStr} (hb : b ≠ n) (l : JsStr) :
    countOccurs (n :: ns) (b :: l) = countOccurs (n :: ns) l := by
  show (if (n :: ns).isPrefixOf (b :: l) then 1 else 0) + countOccurs (n :: ns) l = _
  have hnp : ¬ ((n :: ns) <+: (b :: l)) := by
    intro h
    rcases List.cons_prefix_cons.mp h with ⟨rfl, -⟩
    exact hb rfl
  simp [List.isPrefixOf_iff_prefix, hnp]

lemma containsSub_false_count :
    ∀ {needle l : JsStr}, containsSub needle l = false → countOccurs needle l = 0
  | needle, [], _ => rfl
  | needle, c :: rest, h => by
    simp only [containsSub, Bool.or_eq_false_iff] at h
    show (if needle.isPrefixOf (c :: rest) then 1 else 0) + countOccurs needle rest = 0
    rw [h.1]
    simp [containsSub_false_count h.2]

/-- **C10**.  Import injection is de-duplicated even though entry injection
is not: when the registry text already contains `import <ClassName>` exactly
once, re-running the registry rewrite does not prepend a second import (the
output still contains exactly one occurrence of `import <ClassName>`) while
the new registry entry is still spliced in before the closing `"\n}"`.
`tdTail` is the entry text after its leading newline; a rendered entry never
contains an import statement (`htd`). -/
theorem registry_import_dedup
    (className importLine tdTail content B M₁ M₂ S : JsStr)
    (h1 : findSplit toolsAnchor content = some (B, M₁ ++ 125 :: M₂ ++ nlBrace ++ S))
    (h2 : findSplit nlBrace (M₁ ++ 125 :: M₂ ++ nlBrace ++ S) = some (M₁ ++ 125 :: M₂, S))
    (h3 : (125 : Nat) ∉ M₂)
    (h10 : (10 : Nat) ∉ className) (h125 : (125 : Nat) ∉ className)
    (hcount : countOccurs (importNeedle className) content = 1)
    (htd : countOccurs (importNeedle className) (10 :: tdTail) = 0) :
    updateMcpRegistryContent className importLine (10 :: tdTail) content
      = B ++ toolsAnchor ++ M₁ ++ 125 ::
          ((if (jstr ",").isPrefixOf (jsTrim M₂) then M₂ else 44 :: M₂)
            ++ (10 :: tdTail) ++ nlBrace ++ S)
    ∧ countOccurs (importNeedle className)
        (B ++ toolsAnchor ++ M₁ ++ 125 ::
          ((if (jstr ",").isPrefixOf (jsTrim M₂) then M₂ else 44 :: M₂)
            ++ (10 :: tdTail) ++ nlBrace ++ S)) = 1 := by
  have hn10 : (10 : Nat) ∉ importNeedle className := by
    intro hmem
    unfold importNeedle at hmem
    rcases List.mem_append.mp hmem with h | h
    · revert h; decide
    · exact h10 h
  have hn125 : (125 : Nat) ∉ importNeedle className := by
    intro hmem
    unfold importNeedle at hmem
    rcases List.mem_append.mp hmem with h | h
    · revert h; decide
    · exact h125 h
  have hnd : importNeedle className = 105 :: (jstr "mport " ++ className) := rfl
  -- the import is already present, so the rewrite takes the dedup branch
  have hcont : containsSub (importNeedle className) content = true := by
    cases hc : containsSub (importNeedle className) content with
    | true => rfl
    | false =>
      exact absurd (containsSub_false_count hc ▸ hcount) (by simp)
  have hmain : updateMcpRegistryContent className importLine (10 :: tdTail) content
      = appendToolEntry content (10 :: tdTail) := by
    unfold updateMcpRegistryContent
    rw [if_pos hcont]
  -- occurrence counting around the three splice points
  have eGen : ∀ (X T : JsStr),
      countOccurs (importNeedle className) ((B ++ toolsAnchor ++ M₁) ++ 125 :: (X ++ 10 :: T))
        = countOccurs (importNeedle className) (B ++ toolsAnchor ++ M₁)
          + (countOccurs (importNeedle className) X
             + countOccurs (importNeedle className) (10 :: T)) := by
    intro X T
    rw [countOccurs_append hn125, hnd, countOccurs_cons_of_head_ne (by decide), ← hnd,
      countOccurs_append hn10]
  have hcontent : content
      = (B ++ toolsAnchor ++ M₁) ++ 125 :: (M₂ ++ 10 :: (125 :: S)) := by
    rw [findSplit_eq h1]
    simp [nlBrace]
  have hc1 : countOccurs (importNeedle className) (B ++ toolsAnchor ++ M₁)
      + (countOccurs (importNeedle className) M₂
         + countOccurs (importNeedle className) (10 :: 125 :: S)) = 1 := by
    rw [← eGen M₂ (125 :: S), ← hcontent]
    exact hcount
  have hM2 : countOccurs (importNeedle className)
      (if (jstr ",").isPrefixOf (jsTrim M₂) then M₂ else 44 :: M₂)
      = countOccurs (importNeedle className) M₂ := by
    cases hcomma : (jstr ",").isPrefixOf (jsTrim M₂) with
    | true => simp
    | false =>
      simp only [Bool.false_eq_true, if_false]
      rw [hnd, countOccurs_cons_of_head_ne (by decide), ← hnd]
  have hTd : countOccurs (importNeedle className) (10 :: (tdTail ++ 10 :: (125 :: S)))
      = countOccurs (importNeedle className) (10 :: 125 :: S) := by
    rw [show (10 : Nat) :: (tdTail ++ 10 :: (125 :: S))
        = (10 :: tdTail) ++ 10 :: (125 :: S) from rfl]
    rw [countOccurs_append hn10, htd]
    simp
  refine ⟨hmain.trans (appendToolEntry_anchor content (10 :: tdTail) B M₁ M₂ S h1 h2 h3), ?_⟩
  have hresult : B ++ toolsAnchor ++ M₁ ++ 125 ::
        ((if (jstr ",").isPrefixOf (jsTrim M₂) then M₂ else 44 :: M₂)
          ++ (10 :: tdTail) ++ nlBrace ++ S)
      = (B ++ toolsAnchor ++ M₁) ++ 125 ::
        ((if (jstr ",").isPrefixOf (jsTrim M₂) then M₂ else 44 :: M₂)
          ++ 10 :: (tdTail ++ 10 :: (125 :: S))) := by
    simp [nlBrace]
  rw [hresult, eGen _ (tdTail ++ 10 :: (125 :: S)), hM2, hTd]
  exact hc1

/-- Witness for C10: a one-entry registry that already imports
`WeatherService`; the rewrite keeps one import and appends the entry. -/
theorem registry_import_dedup_witness :
    updateMcpRegistryContent (jstr "W") (jstr "IMPORT") (10 :: jstr "  t,")
        (jstr "import W;\n" ++ toolsAnchor ++ jstr "\n  e: \x7b" ++ 125 ::
          ([] : JsStr) ++ nlBrace ++ jstr "E")
      = jstr "import W;\n" ++ toolsAnchor ++ jstr "\n  e: \x7b" ++ 125 ::
          ((if (jstr ",").isPrefixOf (jsTrim ([] : JsStr)) then ([] : JsStr)
            else 44 :: ([] : JsStr))
            ++ (10 :: jstr "  t,") ++ nlBrace ++ jstr "E") :=
  (registry_import_dedup (jstr "W") (jstr "IMPORT") (jstr "  t,")
    (jstr "import W;\n" ++ toolsAnchor ++ jstr "\n  e: \x7b" ++ 125 ::
      ([] : JsStr) ++ nlBrace ++ jstr "E")
    (jstr "import W;\n") (jstr "\n  e: \x7b") [] (jstr "E")
    (by decide) (by decide) (by decide) (by decide) (by decide) (by decide)
    (by decide)).1

/-! ### Name derivation in the tool generator (scaffold-tool/script.ts) -/

structure ToolDomainInfo where
  dirName : JsStr
  className : JsStr
  /-- `absolutePath` as path components (`src/domain/<dir>/services/<file>`). -/
  absolutePath : List JsStr
deriving DecidableEq

structure ClientInfoM where
  fileName : JsStr
  className : JsStr
  absolutePath : List JsStr
deriving DecidableEq

structure ToolRawInputs where
  domain : ToolDomainInfo
  methodNameRaw : JsStr
  toolNameRaw : JsStr
  toolDescription : JsStr
  httpClient : Option ClientInfoM
  httpMethodRaw : JsStr
  dbClient : Option ClientInfoM
  dbMethodRaw : JsStr
deriving DecidableEq

structure ToolConfig where
  domain : ToolDomainInfo
  methodName : JsStr
  toolName : JsStr
  toolDescription : JsStr
  requestDtoName : JsStr
  responseDtoName : JsStr
  dtoFile : List JsStr
  httpClient : Option ClientInfoM
  httpClientMethodName : JsStr
  dbClient : Option ClientInfoM
  dbClientMethodName : JsStr
deriving DecidableEq

/-- `transformInputs` of the tool generator.  `path.join(path.dirname(abs),
'../dtos')` drops the file and the `services` directory and appends `dtos`. -/
def toolTransformInputs (i : ToolRawInputs) : ToolConfig :=
  let methodName := toCamelCase i.methodNameRaw
  let toolName := toSnakeCase i.toolNameRaw
  let dtoDir := i.domain.absolutePath.dropLast.dropLast ++ [jstr "dtos"]
  { domain := i.domain
    methodName := methodName
    toolName := toolName
    toolDescription := i.toolDescription
    requestDtoName := toPascalCase methodName ++ jstr "RequestDto"
    responseDtoName := toPascalCase methodName ++ jstr "ResponseDto"
    dtoFile := dtoDir ++ [methodName ++ jstr ".dto.ts"]
    httpClient := i.httpClient
    httpClientMethodName := toCamelCase i.httpMethodRaw
    dbClient := i.dbClient
    dbClientMethodName := toCamelCase i.dbMethodRaw }

/-- **C3** (amended).  The DTO names depend only on the camelized method
name: `requestDto = Pascal(Camel(methodInput)) ++ "RequestDto"`,
`responseDto = Pascal(Camel(methodInput)) ++ "ResponseDto"`, and the DTO file
name (last path component) is `Camel(methodInput) ++ ".dto.ts"`; two runs
that agree on the method input produce identical DTO names and file names
regardless of the domain.  For the method input `create-order` (camelized to
`createOrder`) the names are `CreateOrderRequestDto`, `CreateOrderResponseDto`
and `createOrder.dto.ts`.  (Feeding the single-token input `createOrder`
instead lower-cases it, see the counterexample.) -/
theorem dto_names_from_camelized_method (i : ToolRawInputs) :
    (toolTransformInputs i).requestDtoName
        = toPascalCase (toCamelCase i.methodNameRaw) ++ jstr "RequestDto"
    ∧ (toolTransformInputs i).responseDtoName
        = toPascalCase (toCamelCase i.methodNameRaw) ++ jstr "ResponseDto"
    ∧ (toolTransformInputs i).dtoFile.getLast?
        = some (toCamelCase i.methodNameRaw ++ jstr ".dto.ts")
    ∧ (∀ j : ToolRawInputs, j.methodNameRaw = i.methodNameRaw →
        (toolTransformInputs j).requestDtoName = (toolTransformInputs i).requestDtoName
        ∧ (toolTransformInputs j).responseDtoName = (toolTransformInputs i).responseDtoName
        ∧ (toolTransformInputs j).dtoFile.getLast? = (toolTransformInputs i).dtoFile.getLast?)
    ∧ toCamelCase (jstr "create-order") = jstr "createOrder"
    ∧ toPascalCase (toCamelCase (jstr "create-order")) = jstr "CreateOrder" := by
  refine ⟨rfl, rfl, by simp [toolTransformInputs], ?_, by decide, by decide⟩
  intro j hj
  refine ⟨?_, ?_, ?_⟩ <;> simp [toolTransformInputs, hj]

/-- Witness for C3 (amended): two runs with different domains but the same
method input `create-order` derive the same request-DTO name. -/
theorem dto_names_from_camelized_method_witness :
    (toolTransformInputs
        { domain := ⟨jstr "billing", jstr "BillingService",
            [jstr "src", jstr "domain", jstr "billing", jstr "services",
              jstr "billing.service.ts"]⟩
          methodNameRaw := jstr "create-order", toolNameRaw := jstr "create_order"
          toolDescription := [], httpClient := none, httpMethodRaw := []
          dbClient := none, dbMethodRaw := [] }).requestDtoName
      = (toolTransformInputs
        { domain := ⟨jstr "order-system", jstr "OrderSystemService",
            [jstr "src", jstr "domain", jstr "order-system", jstr "services",
              jstr "order-system.service.ts"]⟩
          methodNameRaw := jstr "create-order", toolNameRaw := jstr "create_order"
          toolDescription := [], httpClient := none, httpMethodRaw := []
          dbClient := none, dbMethodRaw := [] }).requestDtoName :=
  ((dto_names_from_camelized_method _).2.2.2.1 _ (by decide)).1

/-- **C3** (counterexample).  For domain `order-system` and method input
`createOrder` the generator does **not** derive `CreateOrderRequestDto`:
`toCamelCase` lower-cases the single token to `createorder`, so the derived
request DTO is `CreateorderRequestDto` and the DTO file is
`createorder.dto.ts`. -/
theorem dto_names_createOrder_cex :
    (toolTransformInputs
        { domain := ⟨jstr "order-system", jstr "OrderSystemService",
            [jstr "src", jstr "domain", jstr "order-system", jstr "services",
              jstr "order-system.service.ts"]⟩
          methodNameRaw := jstr "createOrder", toolNameRaw := jstr "create_order"
          toolDescription := [], httpClient := none, httpMethodRaw := []
          dbClient := none, dbMethodRaw := [] }).requestDtoName
      = jstr "CreateorderRequestDto"
    ∧ jstr "CreateorderRequestDto" ≠ jstr "CreateOrderRequestDto"
    ∧ (toolTransformInputs
        { domain := ⟨jstr "order-system", jstr "OrderSystemService",
            [jstr "src", jstr "domain", jstr "order-system", jstr "services",
              jstr "order-system.service.ts"]⟩
          methodNameRaw := jstr "createOrder", toolNameRaw := jstr "create_order"
          toolDescription := [], httpClient := none, httpMethodRaw := []
          dbClient := none, dbMethodRaw := [] }).dtoFile.getLast?
      = some (jstr "createorder.dto.ts") := by
  refine ⟨by decide, by decide, ?_⟩
  simp [toolTransformInputs]
  decide

/-! ### The client generator (scaffold-client/script.ts) -/

/-- A file system as an association list from paths (component lists) to file
contents. -/
abbrev FSL := List (List JsStr × JsStr)

structure DomainInfoM where
  dirName : JsStr
  className : JsStr
  absolutePath : List JsStr
deriving DecidableEq

structure ClientRawInputs where
  domainIdxRaw : JsStr
  typeRaw : JsStr
  nameRaw : JsStr
  methodRaw : JsStr
  availableDomains : List DomainInfoM
deriving DecidableEq

structure ClientConfig where
  domain : DomainInfoM
  type : JsStr
  clientNameKebab : JsStr
  methodNameCamel : JsStr
  classNamePrefix : JsStr
  clientsDir : List JsStr
deriving DecidableEq

deriving instance DecidableEq for Except

def CLIENT_TYPE_HTTP : JsStr := jstr "1"
def CLIENT_TYPE_DB : JsStr := jstr "2"

/-- Accumulate decimal digits, `parseInt` style. -/
def parseDigitsGo : JsStr → Nat → Nat
  | c :: rest, acc => if 48 ≤ c ∧ c ≤ 57 then parseDigitsGo rest (acc * 10 + (c - 48)) else acc
  | [], acc => acc

/-- Leading decimal-digit run; `none` when the first character is no digit. -/
def parseDigitsLead : JsStr → Option Nat
  | c :: rest => if 48 ≤ c ∧ c ≤ 57 then some (parseDigitsGo rest (c - 48)) else none
  | [] => none

/-- JS `parseInt(s)` (base 10): skip leading whitespace, optional sign,
leading digit run; `none` models `NaN`. -/
def parseIntJS (s : JsStr) : Option Int :=
  match trimStart s with
  | 45 :: rest => (parseDigitsLead rest).map (fun n => -(n : Int))
  | 43 :: rest => (parseDigitsLead rest).map (fun n => (n : Int))
  | t => (parseDigitsLead t).map (fun n => (n : Int))

example : parseIntJS (jstr "99") = some 99 := by decide
example : parseIntJS (jstr " 7x") = some 7 := by decide
example : parseIntJS (jstr "x") = none := by decide
example : parseIntJS (jstr "-2") = some (-2) := by decide

/-- JS array indexing `l[i]` with an `Int` index (`undefined` ↦ `none`). -/
def jsIndex {α : Type} (l : List α) (i : Int) : Option α :=
  if 0 ≤ i then l[i.toNat]? else none

/-- `loadInputs` trims the type, name and method answers before returning
them (the domain index is trimmed later, inside `transformInputs`). -/
def clientLoadInputs (domainIdxAns typeAns nameAns methodAns : JsStr)
    (domains : List DomainInfoM) : ClientRawInputs :=
  { domainIdxRaw := domainIdxAns
    typeRaw := jsTrim typeAns
    nameRaw := jsTrim nameAns
    methodRaw := jsTrim methodAns
    availableDomains := domains }

/-- `transformInputs` of the client generator: validate the domain selection,
the client type and the name, then derive the configuration; an empty method
answer falls back to `fetchData` (HTTP) or `getData` (DB). -/
def clientTransformInputs (i : ClientRawInputs) : Except JsStr ClientConfig :=
  let idxOpt := parseIntJS (jsTrim i.domainIdxRaw)
  let domOpt := match idxOpt with
    | none => none
    | some n => jsIndex i.availableDomains (n - 1)
  match domOpt with
  | none => .error (jstr "Invalid domain selection.")
  | some domain =>
    if i.typeRaw ≠ CLIENT_TYPE_HTTP ∧ i.typeRaw ≠ CLIENT_TYPE_DB then
      .error (jstr "Invalid client type.")
    else if i.nameRaw = [] then
      .error (jstr "Client name is required.")
    else
      let clientNameKebab := toKebabCase i.nameRaw
      let defaultMethod :=
        if i.typeRaw = CLIENT_TYPE_HTTP then jstr "fetchData" else jstr "getData"
      let methodNameCamel :=
        if i.methodRaw ≠ [] then toCamelCase i.methodRaw else defaultMethod
      .ok { domain := domain
            type := i.typeRaw
            clientNameKebab := clientNameKebab
            methodNameCamel := methodNameCamel
            classNamePrefix := toPascalCase clientNameKebab
            clientsDir := [jstr "src", jstr "domain", domain.dirName, jstr "clients"] }

/-- Create or overwrite one file. -/
def fsWrite (fs : FSL) (p : List JsStr) (c : JsStr) : FSL :=
  if fs.any (fun e => e.1 = p) then fs.map (fun e => if e.1 = p then (p, c) else e)
  else fs ++ [(p, c)]

def getHttpClientTemplate (className methodName : JsStr) : JsStr :=
  jstr "import HttpClient from \"../../../api/client.js\";\nimport env from \"../../../env.js\";\nimport \x7b getHeaders \x7d from \"../utils/api.js\";\n\nexport class "
    ++ className
    ++ jstr " \x7b\n  private readonly httpClient: HttpClient;\n\n  constructor() \x7b\n    this.httpClient = new HttpClient(env.API.Url, getHeaders());\n  \x7d\n\n  async "
    ++ methodName
    ++ jstr "(dto: any): Promise<any> \x7b\n    // TODO: Define DTOs for dto and return type\n    // return this.httpClient.post(\"/\", dto);\n    return null;\n  \x7d\n\x7d"

def getDbClientTemplate (className methodName : JsStr) : JsStr :=
  jstr "export class " ++ className ++ jstr " \x7b\n  async " ++ methodName
    ++ jstr "(id: string): Promise<any | null> \x7b\n    // TODO: Implement database logic\n    return null;\n  \x7d\n\x7d"

def getApiUtilsTemplate : JsStr :=
  jstr "import env from \"../../../env.js\";\n\nexport function getHeaders(): Record<string, string> \x7b\n  const headers: Record<string, string> = \x7b\x7d;\n  // headers[\"Authorization\"] = env.API.headers.ApiKey;\n  return headers;\n\x7d"

/-- Create the shared `utils/api.ts` if it is missing (HTTP clients only). -/
def ensureUtilsApi (domainDirName : JsStr) (fs : FSL) : FSL :=
  let apiFile := [jstr "src", jstr "domain", domainDirName, jstr "utils", jstr "api.ts"]
  if fs.any (fun e => e.1 = apiFile) then fs else fsWrite fs apiFile getApiUtilsTemplate

def generateClientFiles (cfg : ClientConfig) (fs : FSL) : FSL :=
  if cfg.type = CLIENT_TYPE_HTTP then
    fsWrite (ensureUtilsApi cfg.domain.dirName fs)
      (cfg.clientsDir ++ [cfg.clientNameKebab ++ jstr ".http.client.ts"])
      (getHttpClientTemplate (cfg.classNamePrefix ++ jstr "HttpClient") cfg.methodNameCamel)
  else
    fsWrite fs (cfg.clientsDir ++ [cfg.clientNameKebab ++ jstr ".db.client.ts"])
      (getDbClientTemplate (cfg.classNamePrefix ++ jstr "DbClient") cfg.methodNameCamel)

structure ClientRunResult where
  fs : FSL
  exitCode : Nat
  fatalLog : Option JsStr
deriving DecidableEq

/-- One run of the client generator under `execute`: a thrown validation
error is caught, logged with the `[FATAL ERROR]` marker and the process
exits with code 1 without touching the file system; otherwise the files are
generated and the process ends with code 0. -/
def runScaffoldClient (i : ClientRawInputs) (fs : FSL) : ClientRunResult :=
  if i.availableDomains = [] then
    { fs := fs, exitCode := 1
      fatalLog := some (jstr "[FATAL ERROR] No domains found. Please run 'npm run new-domain'") }
  else
    match clientTransformInputs i with
    | .error msg =>
      { fs := fs, exitCode := 1, fatalLog := some (jstr "[FATAL ERROR] " ++ msg) }
    | .ok cfg => { fs := generateClientFiles cfg fs, exitCode := 0, fatalLog := none }

/-- **C9**.  Selection validation failure is fatal: with exactly one
available domain, answering `99` makes the run exit with code 1, print a
diagnostic containing `[FATAL ERROR]` and `Invalid domain selection`, and
leave the file system untouched. -/
theorem selection_validation_fatal (i : ClientRawInputs) (fs : FSL)
    (hlen : i.availableDomains.length = 1)
    (hidx : jsTrim i.domainIdxRaw = jstr "99") :
    (runScaffoldClient i fs).exitCode = 1
    ∧ (runScaffoldClient i fs).fs = fs
    ∧ ∃ m, (runScaffoldClient i fs).fatalLog = some m
        ∧ containsSub (jstr "[FATAL ERROR]") m = true
        ∧ containsSub (jstr "Invalid domain selection") m = true := by
  have hne : i.availableDomains ≠ [] := by
    intro h
    rw [h] at hlen
    simp at hlen
  have hparse : parseIntJS (jsTrim i.domainIdxRaw) = some 99 := by
    rw [hidx]
    decide
  have hnone : i.availableDomains[(98 : Nat)]? = none := by
    rw [List.getElem?_eq_none]
    omega
  have htrans : clientTransformInputs i = .error (jstr "Invalid domain selection.") := by
    have hji : jsIndex i.availableDomains (98 : Int) = none := by
      unfold jsIndex
      rw [if_pos (by omega)]
      have ht : ((98 : Int)).toNat = 98 := by decide
      rw [ht, hnone]
    unfold clientTransformInputs
    rw [hparse]
    simp [hji]
  have hrun : runScaffoldClient i fs
      = { fs := fs, exitCode := 1
          fatalLog := some (jstr "[FATAL ERROR] " ++ jstr "Invalid domain selection.") } := by
    unfold runScaffoldClient
    rw [if_neg hne, htrans]
  rw [hrun]
  exact ⟨rfl, rfl, jstr "[FATAL ERROR] " ++ jstr "Invalid domain selection.", rfl,
    by decide, by decide⟩

/-- Witness for C9 at one concrete domain and the answer `"99"`. -/
theorem selection_validation_fatal_witness :
    (runScaffoldClient
        { domainIdxRaw := jstr "99", typeRaw := jstr "1", nameRaw := jstr "open-meteo"
          methodRaw := [],
          availableDomains := [⟨jstr "weather", jstr "WeatherService",
            [jstr "src", jstr "domain", jstr "weather", jstr "services",
              jstr "weather.service.ts"]⟩] } []).exitCode = 1 :=
  (selection_validation_fatal _ [] (by decide) (by decide)).1

/-! ### The domain generator's configuration (scaffold-domain, `createDomainConfig`) -/

structure DomainRawInputs where
  domainNameRaw : JsStr
  addHttpRaw : JsStr
  addDbRaw : JsStr
  clientMethodNameRaw : JsStr
  serviceMethodRaw : JsStr
deriving DecidableEq

structure DomainNames where
  domainPascal : JsStr
  dtoFileName : JsStr
  requestDtoName : JsStr
  responseDtoName : JsStr
  httpClientClassName : JsStr
  dbClientClassName : JsStr
  httpClientFileName : JsStr
  dbClientFileName : JsStr
  serviceClassName : JsStr
  serviceFileName : JsStr
deriving DecidableEq

structure DomainConfig where
  domainDirName : JsStr
  domainBasePath : List JsStr
  addHttp : Bool
  addDb : Bool
  clientMethodName : JsStr
  serviceMethodName : JsStr
  names : DomainNames
deriving DecidableEq

/-- `createDomainConfig`: validate the domain name (non-empty, not already on
disk — `domainExists` stands for `fs.existsSync(domainBasePath)`), then
derive every name.  An empty client-method answer defaults to `fetchData`
(for HTTP and DB clients alike); an empty service-method answer defaults to
`getData`, and the DTO names are derived from the defaulted service method. -/
def createDomainConfig (i : DomainRawInputs) (domainExists : Bool) :
    Except JsStr DomainConfig :=
  if i.domainNameRaw = [] then .error (jstr "Domain name is required.")
  else
    let domainDirName := toKebabCase i.domainNameRaw
    if domainExists then
      .error (jstr "Domain '" ++ domainDirName ++ jstr "' already exists.")
    else
      let addHttp := i.addHttpRaw = jstr "y" ∨ i.addHttpRaw = jstr "yes"
      let addDb := i.addDbRaw = jstr "y" ∨ i.addDbRaw = jstr "yes"
      let clientMethodName :=
        if i.clientMethodNameRaw ≠ [] then toCamelCase i.clientMethodNameRaw
        else jstr "fetchData"
      let serviceMethodName :=
        if i.serviceMethodRaw ≠ [] then toCamelCase i.serviceMethodRaw
        else jstr "getData"
      let domainPascal := toPascalCase domainDirName
      .ok { domainDirName := domainDirName
            domainBasePath := [jstr "src", jstr "domain", domainDirName]
            addHttp := addHttp
            addDb := addDb
            clientMethodName := clientMethodName
            serviceMethodName := serviceMethodName
            names := { domainPascal := domainPascal
                       dtoFileName := serviceMethodName ++ jstr ".dto.ts"
                       requestDtoName := toPascalCase serviceMethodName ++ jstr "RequestDto"
                       responseDtoName := toPascalCase serviceMethodName ++ jstr "ResponseDto"
                       httpClientClassName := domainPascal ++ jstr "HttpClient"
                       dbClientClassName := domainPascal ++ jstr "DbClient"
                       httpClientFileName := domainDirName ++ jstr ".http.client.ts"
                       dbClientFileName := domainDirName ++ jstr ".db.client.ts"
                       serviceClassName := domainPascal ++ jstr "Service"
                       serviceFileName := domainDirName ++ jstr ".service.ts" } }

/-- **C8** (amended).  Default method fallback.  In the client generator an
empty (after trimming) method answer yields `fetchData` for an HTTP client
and `getData` for a DB client, substituted during `transformInputs` before
any file is generated.  In the domain generator an empty client-method
answer defaults to `fetchData` for both HTTP and DB clients, while an empty
service-method answer defaults to `getData` before the DTO names are
derived, so no DTO name is computed from an empty string. -/
theorem default_method_fallback_amended :
    (∀ (dAns tAns nAns mAns : JsStr) (doms : List DomainInfoM) (cfg : ClientConfig),
      clientTransformInputs (clientLoadInputs dAns tAns nAns mAns doms) = .ok cfg →
      jsTrim mAns = [] →
      cfg.methodNameCamel
        = (if jsTrim tAns = CLIENT_TYPE_HTTP then jstr "fetchData" else jstr "getData"))
    ∧ (∀ (i : DomainRawInputs) (ex : Bool) (cfg : DomainConfig),
      createDomainConfig i ex = .ok cfg →
      (i.clientMethodNameRaw = [] → cfg.clientMethodName = jstr "fetchData")
      ∧ (i.serviceMethodRaw = [] →
          cfg.serviceMethodName = jstr "getData"
          ∧ cfg.names.dtoFileName = jstr "getData.dto.ts"
          ∧ cfg.names.requestDtoName = jstr "GetDataRequestDto"
          ∧ cfg.names.responseDtoName = jstr "GetDataResponseDto")) := by
  constructor
  · intro dAns tAns nAns mAns doms cfg hok hm
    unfold clientTransformInputs clientLoadInputs at hok
    simp only [hm] at hok
    cases hdom : (match parseIntJS (jsTrim dAns) with
        | none => none
        | some n => jsIndex doms (n - 1)) with
    | none => rw [hdom] at hok; simp at hok
    | some d =>
      rw [hdom] at hok
      by_cases ht : jsTrim tAns ≠ CLIENT_TYPE_HTTP ∧ jsTrim tAns ≠ CLIENT_TYPE_DB
      · simp [ht] at hok
      · by_cases hn : jsTrim nAns = []
        · simp [ht, hn] at hok
        · simp only [ht, if_false, hn, ne_eq, not_true_eq_false,
            Except.ok.injEq] at hok
          rw [← hok]
  · intro i ex cfg hok
    unfold createDomainConfig at hok
    by_cases hname : i.domainNameRaw = []
    · rw [if_pos hname] at hok; simp at hok
    · rw [if_neg hname] at hok
      cases ex with
      | true => simp at hok
      | false =>
        simp only [Bool.false_eq_true, if_false, Except.ok.injEq] at hok
        constructor
        · intro hcm
          rw [← hok]
          simp [hcm]
        · intro hsm
          rw [← hok]
          simp [hsm]
          decide

/-- Witness for C8 (amended): DB client type `2`, method answer `" "` (empty
after trimming) derives `getData`. -/
theorem default_method_fallback_amended_witness :
    ({ domain := ⟨jstr "weather", jstr "WeatherService",
          [jstr "src", jstr "domain", jstr "weather", jstr "services",
            jstr "weather.service.ts"]⟩
       type := jstr "2", clientNameKebab := jstr "postgres-db"
       methodNameCamel := jstr "getData", classNamePrefix := jstr "PostgresDb"
       clientsDir := [jstr "src", jstr "domain", jstr "weather", jstr "clients"] } :
        ClientConfig).methodNameCamel
      = (if jsTrim (jstr "2") = CLIENT_TYPE_HTTP then jstr "fetchData" else jstr "getData") :=
  default_method_fallback_amended.1 (jstr "1") (jstr "2") (jstr "postgres-db") (jstr " ")
    [⟨jstr "weather", jstr "WeatherService", [jstr "src", jstr "domain", jstr "weather",
      jstr "services", jstr "weather.service.ts"]⟩] _ (by decide) (by decide)

/-- **C8** (counterexample).  In the domain generator, an empty client-method
input for a run that adds only a DB client derives the client method
`fetchData`, not `getData` as the claim states (the domain generator's
default is `fetchData` regardless of client type; its own test 8 pins this). -/
theorem domain_db_default_method_cex :
    (createDomainConfig
        { domainNameRaw := jstr "users", addHttpRaw := jstr "n", addDbRaw := jstr "y"
          clientMethodNameRaw := [], serviceMethodRaw := jstr "get-users" }
        false).toOption.map (fun c => (c.addHttp, c.addDb, c.clientMethodName))
      = some (false, true, jstr "fetchData")
    ∧ jstr "fetchData" ≠ jstr "getData" := by decide

/-! ### The project-init orchestrator (startup-project/script.ts)

`execute` runs, in order: `updateGlobalConfig`, `updateDomainStructure`,
`updateDomainContent`, `updateMcpRegistry`, `endMessage` (log only),
`cleanup`.  We model the run as a trace of file-system operations in source
order and interpret it over a path-keyed file system plus a structured
`package.json` manifest (the manifest is a JSON document; its two textual
`updateGlobalConfig` replacements and the structural
`JSON.parse`/`delete`/`JSON.stringify` of `cleanup` are modeled on the
parsed document). -/

structure StartupRawInputs where
  projectNameRaw : JsStr
  domainInputRaw : JsStr
  serviceMethodRaw : JsStr
  toolNameRaw : JsStr
  clientMethodNameRaw : JsStr
deriving DecidableEq

structure ProjectConfig where
  projectName : JsStr
  domainInput : JsStr
  serviceMethod : JsStr
  toolName : JsStr
  clientMethodName : JsStr
  domainDirName : JsStr
  domainPascalCase : JsStr
  domainServiceClassName : JsStr
  toolEnvVar : JsStr
  domainServiceFileName : JsStr
  dbClientClassName : JsStr
  httpClientClassName : JsStr
  dbClientFileName : JsStr
  httpClientFileName : JsStr
  serviceMethodPascal : JsStr
  requestDto : JsStr
  responseDto : JsStr
deriving DecidableEq

/-- `transformInputs` of the project-init script. -/
def startupTransformInputs (i : StartupRawInputs) : ProjectConfig :=
  let projectName := toKebabCase i.projectNameRaw
  let domainInput := toKebabCase i.domainInputRaw
  let serviceMethod := toCamelCase i.serviceMethodRaw
  let toolName := toSnakeCase i.toolNameRaw
  let clientMethodName := toCamelCase i.clientMethodNameRaw
  let domainPascalCase := toPascalCase domainInput
  let serviceMethodPascal := toPascalCase i.serviceMethodRaw
  { projectName := projectName
    domainInput := domainInput
    serviceMethod := serviceMethod
    toolName := toolName
    clientMethodName := clientMethodName
    domainDirName := domainInput.map lowerCode
    domainPascalCase := domainPascalCase
    domainServiceClassName := domainPascalCase ++ jstr "Service"
    toolEnvVar := toUpperCaseStr toolName
    domainServiceFileName := domainInput ++ jstr ".service.ts"
    dbClientClassName := domainPascalCase ++ jstr "DbClient"
    httpClientClassName := domainPascalCase ++ jstr "HttpClient"
    dbClientFileName := domainInput ++ jstr ".db.client.ts"
    httpClientFileName := domainInput ++ jstr ".http.client.ts"
    serviceMethodPascal := serviceMethodPascal
    requestDto := serviceMethodPascal ++ jstr "RequestDto"
    responseDto := serviceMethodPascal ++ jstr "ResponseDto" }

/-- `s.replace(needle, repl)`: first occurrence only. -/
def replaceFirst (needle repl s : JsStr) : JsStr :=
  match findSplit needle s with
  | some (pre, post) => pre ++ repl ++ post
  | none => s

/-- The `package.json` document: `name`, `description`, the `scripts` table,
and the remaining top-level entries. -/
structure PackageManifest where
  name : JsStr
  description : JsStr
  scripts : List (JsStr × JsStr)
  rest : List (JsStr × JsStr)
deriving DecidableEq

def lookupKV (k : JsStr) : List (JsStr × JsStr) → Option JsStr
  | [] => none
  | e :: es => if e.1 = k then some e.2 else lookupKV k es

/-- JS `delete obj[k]`: remove the (unique) entry with key `k`. -/
def eraseKV (k : JsStr) : List (JsStr × JsStr) → List (JsStr × JsStr)
  | [] => []
  | e :: es => if e.1 = k then es else e :: eraseKV k es

def startupScriptKey : JsStr := jstr "startup-project"

/-- `cleanup`'s manifest edit: if `packageJson.scripts['startup-project']` is
present (and truthy — a nonempty command string), delete it and write the
manifest back; otherwise leave the file untouched. -/
def removeStartupScript (m : PackageManifest) : PackageManifest :=
  match lookupKV startupScriptKey m.scripts with
  | some v => if v = [] then m else { m with scripts := eraseKV startupScriptKey m.scripts }
  | none => m

/-- `updateGlobalConfig`'s `package.json` replacements, on the parsed
document: they replace the literal `"name": "example-mcp-proj-name"` and
`"description": "example-mcp-proj-name"`, i.e. set the fields to the project
name exactly when they still hold the template value. -/
def setManifestNameDesc (pn : JsStr) (m : PackageManifest) : PackageManifest :=
  { m with
    name := if m.name = jstr "example-mcp-proj-name" then pn else m.name
    description := if m.description = jstr "example-mcp-proj-name" then pn else m.description }

inductive FSOp where
  | renameDir (oldP newP : List JsStr)
  | renameFile (oldP newP : List JsStr)
  | rewrite (p : List JsStr) (rules : List (JsStr × JsStr))
  | setManifest (projectName : JsStr)
  | cleanupManifest
  | deleteFile (p : List JsStr)
deriving DecidableEq

structure WorldState where
  fs : FSL
  manifest : PackageManifest
deriving DecidableEq

/-- `fs.existsSync`: the path is a file or a directory containing one. -/
def existsAny (fs : FSL) (p : List JsStr) : Bool :=
  fs.any (fun e => decide (p <+: e.1))

/-- `fs.renameSync` on a subtree: every entry under `o` moves under `n`. -/
def renameSubtree (fs : FSL) (o n : List JsStr) : FSL :=
  fs.map (fun e => if o <+: e.1 then (n ++ e.1.drop o.length, e.2) else e)

def applyOp (st : WorldState) : FSOp → WorldState
  | .renameDir o n =>
    { st with fs :=
        if existsAny st.fs o then
          if existsAny st.fs n then st.fs else renameSubtree st.fs o n
        else st.fs }
  | .renameFile o n =>
    { st with fs := if existsAny st.fs o then renameSubtree st.fs o n else st.fs }
  | .rewrite p rules =>
    { st with fs := st.fs.map (fun e =>
        if e.1 = p then (e.1, (applyRulesFlag rules e.2).1) else e) }
  | .setManifest pn => { st with manifest := setManifestNameDesc pn st.manifest }
  | .cleanupManifest => { st with manifest := removeStartupScript st.manifest }
  | .deleteFile p =>
    { st with fs :=
        if existsAny st.fs p then st.fs.filter (fun e => ¬ e.1 = p) else st.fs }

def runOps (st : WorldState) : List FSOp → WorldState
  | [] => st
  | op :: ops => runOps (applyOp st op) ops

def oldDomainPath : List JsStr := [jstr "src", jstr "domain", jstr "domain-name"]

def newDomainPath (c : ProjectConfig) : List JsStr :=
  [jstr "src", jstr "domain", c.domainDirName]

def scriptsFilePath : List JsStr := [jstr "scripts", jstr "startup-project.ts"]

/-- `updateGlobalConfig` (source order). -/
def updateGlobalConfigOps (c : ProjectConfig) : List FSOp :=
  [ .setManifest c.projectName,
    .rewrite [jstr "package-lock.json"]
      [(jstr "\"name\": \"example-mcp-proj-name\"",
        jstr "\"name\": \"" ++ c.projectName ++ jstr "\"")],
    .rewrite [jstr "readme.md"] [(jstr "example-mcp-proj-name", c.projectName)],
    .rewrite [jstr "src", jstr "env.ts"]
      [(jstr "SERVER_NAME: \"example-mcp-proj-name\"",
        jstr "SERVER_NAME: \"" ++ c.projectName ++ jstr "\""),
       (jstr "process.env.EXAMPLE_TOOL", jstr "process.env." ++ c.toolEnvVar),
       (jstr "toolMetadata.example_tool.name",
        jstr "toolMetadata." ++ c.toolName ++ jstr ".name")],
    .rewrite [jstr "src", jstr "tools.metadata.ts"]
      [(jstr "example_tool:", c.toolName ++ jstr ":"),
       (jstr "name: \"example_tool\"", jstr "name: \"" ++ c.toolName ++ jstr "\"")] ]

/-- `updateDomainStructure` (source order): directory rename first, then the
nested file renames, all computed against the post-rename directory path. -/
def updateDomainStructureOps (c : ProjectConfig) : List FSOp :=
  [ .renameDir oldDomainPath (newDomainPath c),
    .renameFile (newDomainPath c ++ [jstr "dtos", jstr "domain.dto.ts"])
      (newDomainPath c ++ [jstr "dtos", c.serviceMethod ++ jstr ".dto.ts"]),
    .renameFile (newDomainPath c ++ [jstr "clients", jstr "domain.db.client.ts"])
      (newDomainPath c ++ [jstr "clients", c.dbClientFileName]),
    .renameFile (newDomainPath c ++ [jstr "clients", jstr "domain.http.client.ts"])
      (newDomainPath c ++ [jstr "clients", c.httpClientFileName]),
    .renameFile (newDomainPath c ++ [jstr "services", jstr "domain.service.ts"])
      (newDomainPath c ++ [jstr "services", c.domainServiceFileName]) ]

/-- `updateDomainContent` (source order). -/
def updateDomainContentOps (c : ProjectConfig) : List FSOp :=
  [ .rewrite (newDomainPath c ++ [jstr "dtos", c.serviceMethod ++ jstr ".dto.ts"])
      [(jstr "DomainExampleRequestDto", c.requestDto),
       (jstr "DomainExampleResponseDto", c.responseDto)],
    .rewrite (newDomainPath c ++ [jstr "clients", c.dbClientFileName])
      [(jstr "class DomainDbClient", jstr "class " ++ c.dbClientClassName),
       (jstr "async example(", jstr "async " ++ c.clientMethodName ++ jstr "("),
       (jstr "\"../dtos/domain.dto.js\"",
        jstr "\"../dtos/" ++ c.serviceMethod ++ jstr ".dto.js\""),
       (jstr "DomainExampleRequestDto", c.requestDto),
       (jstr "DomainExampleResponseDto", c.responseDto)],
    .rewrite (newDomainPath c ++ [jstr "clients", c.httpClientFileName])
      [(jstr "class DomainHttpClient", jstr "class " ++ c.httpClientClassName),
       (jstr "async example(", jstr "async " ++ c.clientMethodName ++ jstr "("),
       (jstr "\"../dtos/domain.dto.js\"",
        jstr "\"../dtos/" ++ c.serviceMethod ++ jstr ".dto.js\""),
       (jstr "DomainExampleRequestDto", c.requestDto),
       (jstr "DomainExampleResponseDto", c.responseDto)],
    .rewrite (newDomainPath c ++ [jstr "services", c.domainServiceFileName])
      [(jstr "class DomainService", jstr "class " ++ c.domainServiceClassName),
       (jstr "async example(", jstr "async " ++ c.serviceMethod ++ jstr "("),
       (jstr "\"../clients/domain.http.client.js\"",
        jstr "\"../clients/" ++ replaceFirst (jstr ".ts") (jstr ".js") c.httpClientFileName
          ++ jstr "\""),
       (jstr "DomainHttpClient", c.httpClientClassName),
       (jstr "this.httpClient.example(",
        jstr "this.httpClient." ++ c.clientMethodName ++ jstr "("),
       (jstr "new DomainService(", jstr "new " ++ c.domainServiceClassName ++ jstr "("),
       (jstr "\"../dtos/domain.dto.js\"",
        jstr "\"../dtos/" ++ c.serviceMethod ++ jstr ".dto.js\""),
       (jstr "DomainExampleRequestDto", c.requestDto),
       (jstr "DomainExampleResponseDto", c.responseDto)] ]

/-- `updateMcpRegistry` of the project-init script. -/
def updateMcpRegistryOps (c : ProjectConfig) : List FSOp :=
  [ .rewrite [jstr "src", jstr "mcp", jstr "tools.ts"]
      [(jstr "domain-name/services/domain.service.js",
        c.domainDirName ++ jstr "/services/"
          ++ replaceFirst (jstr ".ts") (jstr ".js") c.domainServiceFileName),
       (jstr "import DomainService", jstr "import " ++ c.domainServiceClassName),
       (jstr "DomainService.example",
        c.domainServiceClassName ++ jstr "." ++ c.serviceMethod),
       (jstr ".bind(DomainService)", jstr ".bind(" ++ c.domainServiceClassName ++ jstr ")"),
       (jstr "toolMetadata.example_tool", jstr "toolMetadata." ++ c.toolName)] ]

/-- `cleanup` (source order): manifest entry removal, then self-deletion. -/
def cleanupOps : List FSOp := [.cleanupManifest, .deleteFile scriptsFilePath]

/-- Everything `execute` does before `cleanup`. -/
def startupMainOps (c : ProjectConfig) : List FSOp :=
  updateGlobalConfigOps c ++ updateDomainStructureOps c ++ updateDomainContentOps c
    ++ updateMcpRegistryOps c

/-- The full operation trace of one project-init run, in source order. -/
def mkStartupTrace (c : ProjectConfig) : List FSOp :=
  startupMainOps c ++ cleanupOps

/-- The nested operations that follow the directory rename. -/
def startupAfterRenameOps (c : ProjectConfig) : List FSOp :=
  (updateDomainStructureOps c).drop 1 ++ updateDomainContentOps c
    ++ updateMcpRegistryOps c ++ cleanupOps

/-- The paths an operation addresses. -/
def opPaths : FSOp → List (List JsStr)
  | .renameDir o n => [o, n]
  | .renameFile o n => [o, n]
  | .rewrite p _ => [p]
  | .setManifest _ => [[jstr "package.json"]]
  | .cleanupManifest => [[jstr "package.json"]]
  | .deleteFile p => [p]

/-- The template project tree (file bodies are irrelevant to the path-level
properties proved here and are elided). -/
def templateFS : FSL :=
  [ ([jstr "package-lock.json"], []),
    ([jstr "readme.md"], []),
    ([jstr "scripts", jstr "startup-project.ts"], []),
    ([jstr "src", jstr "env.ts"], []),
    ([jstr "src", jstr "tools.metadata.ts"], []),
    ([jstr "src", jstr "index.ts"], []),
    ([jstr "src", jstr "mcp", jstr "tools.ts"], []),
    ([jstr "src", jstr "domain", jstr "domain-name", jstr "service.ts"], []),
    ([jstr "src", jstr "domain", jstr "domain-name", jstr "services",
       jstr "domain.service.ts"], []),
    ([jstr "src", jstr "domain", jstr "domain-name", jstr "services",
       jstr "domain.service.test.ts"], []),
    ([jstr "src", jstr "domain", jstr "domain-name", jstr "clients",
       jstr "domain.http.client.ts"], []) ]

def templateManifest : PackageManifest :=
  { name := jstr "example-mcp-proj-name"
    description := jstr "example-mcp-proj-name"
    scripts := [ (jstr "build", jstr "tsc"),
                 (jstr "start", jstr "node dist/index.js"),
                 (jstr "startup-project", jstr "tsx scripts/startup-project.ts"),
                 (jstr "new-domain", jstr "tsx src/scripts/scaffold-domain/script.ts") ]
    rest := [] }

/-- The §8 scenario inputs: domain `order-system`. -/
def startupExampleInputs : StartupRawInputs :=
  { projectNameRaw := jstr "order-mcp"
    domainInputRaw := jstr "order-system"
    serviceMethodRaw := jstr "create-order"
    toolNameRaw := jstr "create_order"
    clientMethodNameRaw := jstr "fetch-order" }

example :
    (startupTransformInputs startupExampleInputs).domainDirName = jstr "order-system" := by
  decide
example :
    (startupTransformInputs startupExampleInputs).domainServiceFileName
      = jstr "order-system.service.ts" := by
  decide

lemma not_old_prefix {d : JsStr} (h : d ≠ jstr "domain-name") (rest : List JsStr) :
    ¬ (oldDomainPath <+: jstr "src" :: jstr "domain" :: d :: rest) := by
  intro hp
  simp only [oldDomainPath] at hp
  have h1 := (List.cons_prefix_cons.mp hp).2
  have h2 := (List.cons_prefix_cons.mp h1).2
  have h3 := (List.cons_prefix_cons.mp h2).1
  exact h h3.symm

lemma newDomainPath_not_prefix (c : ProjectConfig) (q : List JsStr)
    (h : ¬ ([jstr "src", jstr "domain"] <+: q)) : ¬ (newDomainPath c <+: q) :=
  fun hp => h (List.IsPrefix.trans ⟨[c.domainDirName], rfl⟩ hp)

/-- **C4**.  Rename-before-rewrite ordering.  The project-init trace is the
global-config operations, then the domain-directory rename, then everything
else; no operation before the rename addresses a path inside the old or new
domain directory; every later operation is computed against the post-rename
path (never the old one), and every later operation under `src/domain` is
under the renamed directory.  Running the trace on the template tree with
the §8 inputs (`domain-name` → `order-system`), the new nested path
`src/domain/order-system/services/order-system.service.ts` exists afterwards
and no path remains under `src/domain/domain-name`. -/
theorem startup_rename_before_rewrite (i : StartupRawInputs)
    (h : (startupTransformInputs i).domainDirName ≠ jstr "domain-name") :
    mkStartupTrace (startupTransformInputs i)
      = updateGlobalConfigOps (startupTransformInputs i)
        ++ FSOp.renameDir oldDomainPath (newDomainPath (startupTransformInputs i))
          :: startupAfterRenameOps (startupTransformInputs i)
    ∧ (∀ op ∈ updateGlobalConfigOps (startupTransformInputs i), ∀ p ∈ opPaths op,
        ¬ (oldDomainPath <+: p) ∧ ¬ (newDomainPath (startupTransformInputs i) <+: p))
    ∧ (∀ op ∈ startupAfterRenameOps (startupTransformInputs i), ∀ p ∈ opPaths op,
        ¬ (oldDomainPath <+: p))
    ∧ (∀ op ∈ startupAfterRenameOps (startupTransformInputs i), ∀ p ∈ opPaths op,
        [jstr "src", jstr "domain"] <+: p → newDomainPath (startupTransformInputs i) <+: p)
    ∧ existsAny (runOps ⟨templateFS, templateManifest⟩
        (mkStartupTrace (startupTransformInputs startupExampleInputs))).fs
        [jstr "src", jstr "domain", jstr "order-system", jstr "services",
          jstr "order-system.service.ts"] = true
    ∧ existsAny (runOps ⟨templateFS, templateManifest⟩
        (mkStartupTrace (startupTransformInputs startupExampleInputs))).fs
        oldDomainPath = false := by
  refine ⟨rfl, ?_, ?_, ?_, by decide, by decide⟩
  · intro op hop p hp
    simp only [updateGlobalConfigOps, List.mem_cons, List.not_mem_nil, or_false] at hop
    rcases hop with rfl | rfl | rfl | rfl | rfl <;>
      simp only [opPaths, List.mem_cons, List.not_mem_nil, or_false] at hp <;>
      subst hp <;>
      exact ⟨by decide, newDomainPath_not_prefix _ _ (by decide)⟩
  · intro op hop p hp
    simp only [startupAfterRenameOps, updateDomainStructureOps, updateDomainContentOps,
      updateMcpRegistryOps, cleanupOps, List.drop_succ_cons, List.drop_zero,
      List.cons_append, List.nil_append, List.mem_cons, List.not_mem_nil,
      or_false] at hop
    rcases hop with rfl | rfl | rfl | rfl | rfl | rfl | rfl | rfl | rfl | rfl | rfl <;>
      simp only [opPaths, List.mem_cons, List.not_mem_nil, or_false] at hp
    all_goals
      rcases hp with rfl | rfl <;>
        first
        | decide
        | (simp only [newDomainPath, List.cons_append, List.nil_append]
           exact not_old_prefix h _)
  · intro op hop p hp
    simp only [startupAfterRenameOps, updateDomainStructureOps, updateDomainContentOps,
      updateMcpRegistryOps, cleanupOps, List.drop_succ_cons, List.drop_zero,
      List.cons_append, List.nil_append, List.mem_cons, List.not_mem_nil,
      or_false] at hop
    rcases hop with rfl | rfl | rfl | rfl | rfl | rfl | rfl | rfl | rfl | rfl | rfl <;>
      simp only [opPaths, List.mem_cons, List.not_mem_nil, or_false] at hp
    all_goals
      rcases hp with rfl | rfl <;>
        first
        | (exact fun _ => List.prefix_append _ _)
        | (intro hsd; exact absurd hsd (by decide))

/-- Witness for C4 at the §8 scenario inputs. -/
theorem startup_rename_before_rewrite_witness :
    mkStartupTrace (startupTransformInputs startupExampleInputs)
      = updateGlobalConfigOps (startupTransformInputs startupExampleInputs)
        ++ FSOp.renameDir oldDomainPath
            (newDomainPath (startupTransformInputs startupExampleInputs))
          :: startupAfterRenameOps (startupTransformInputs startupExampleInputs) :=
  (startup_rename_before_rewrite startupExampleInputs (by decide)).1

lemma lookupKV_none_of_not_mem {k : JsStr} :
    ∀ {l : List (JsStr × JsStr)}, k ∉ l.map Prod.fst → lookupKV k l = none
  | [], _ => rfl
  | e :: es, h => by
    have h1 : ¬ (e.1 = k) := fun he => h (by simp [he])
    have h2 : k ∉ es.map Prod.fst := fun hm => h (by simp [hm])
    simp only [lookupKV, h1, if_false]
    exact lookupKV_none_of_not_mem h2

lemma lookupKV_eraseKV_self {k : JsStr} :
    ∀ {l : List (JsStr × JsStr)}, (l.map Prod.fst).Nodup →
      lookupKV k (eraseKV k l) = none
  | [], _ => rfl
  | e :: es, h => by
    rw [List.map_cons, List.nodup_cons] at h
    by_cases he : e.1 = k
    · simp only [eraseKV, he, if_true]
      exact lookupKV_none_of_not_mem (he ▸ h.1)
    · simp only [eraseKV, he, if_false, lookupKV]
      exact lookupKV_eraseKV_self h.2

lemma lookupKV_eraseKV_ne {k k' : JsStr} (hne : k' ≠ k) :
    ∀ (l : List (JsStr × JsStr)), lookupKV k' (eraseKV k l) = lookupKV k' l
  | [] => rfl
  | e :: es => by
    by_cases he : e.1 = k
    · simp only [eraseKV, he, if_true, lookupKV]
      rw [if_neg (fun hx => hne hx.symm)]
    · simp only [eraseKV, he, if_false, lookupKV]
      by_cases he' : e.1 = k'
      · rw [if_pos he', if_pos he']
      · rw [if_neg he', if_neg he']
        exact lookupKV_eraseKV_ne hne es

/-- **C7**.  Self-destruct is last and frame-preserving: the project-init
trace ends with the two cleanup operations (manifest edit, then deletion of
the script's own file) and no earlier operation is a cleanup operation; the
manifest edit removes exactly the `startup-project` entry of the scripts
table (when present with a nonempty command) and leaves every other scripts
entry and every other manifest field unchanged; after the §8 scenario run,
`scripts/startup-project.ts` no longer exists, the manifest no longer has a
`startup-project` script, and the other scripts are untouched. -/
theorem startup_cleanup_last_and_frame (i : StartupRawInputs) (m : PackageManifest)
    (hval : lookupKV startupScriptKey m.scripts ≠ some [])
    (hnodup : (m.scripts.map Prod.fst).Nodup) :
    mkStartupTrace (startupTransformInputs i)
      = startupMainOps (startupTransformInputs i)
        ++ [FSOp.cleanupManifest, FSOp.deleteFile scriptsFilePath]
    ∧ (∀ op ∈ startupMainOps (startupTransformInputs i),
        op ≠ FSOp.cleanupManifest ∧ ∀ p, op ≠ FSOp.deleteFile p)
    ∧ lookupKV startupScriptKey (removeStartupScript m).scripts = none
    ∧ (∀ k, k ≠ startupScriptKey →
        lookupKV k (removeStartupScript m).scripts = lookupKV k m.scripts)
    ∧ (removeStartupScript m).name = m.name
    ∧ (removeStartupScript m).description = m.description
    ∧ (removeStartupScript m).rest = m.rest
    ∧ existsAny (runOps ⟨templateFS, templateManifest⟩
        (mkStartupTrace (startupTransformInputs startupExampleInputs))).fs
        scriptsFilePath = false
    ∧ lookupKV startupScriptKey (runOps ⟨templateFS, templateManifest⟩
        (mkStartupTrace (startupTransformInputs startupExampleInputs))).manifest.scripts
      = none
    ∧ lookupKV (jstr "build") (runOps ⟨templateFS, templateManifest⟩
        (mkStartupTrace (startupTransformInputs startupExampleInputs))).manifest.scripts
      = some (jstr "tsc") := by
  refine ⟨rfl, ?_, ?_, ?_, ?_, ?_, ?_, by decide, by decide, by decide⟩
  · intro op hop
    simp only [startupMainOps, updateGlobalConfigOps, updateDomainStructureOps,
      updateDomainContentOps, updateMcpRegistryOps, List.cons_append, List.nil_append,
      List.append_assoc, List.mem_cons, List.not_mem_nil, or_false] at hop
    rcases hop with rfl | rfl | rfl | rfl | rfl | rfl | rfl | rfl | rfl | rfl | rfl
      | rfl | rfl | rfl | rfl <;>
      exact ⟨by simp, fun p => by simp⟩
  · unfold removeStartupScript
    cases hlk : lookupKV startupScriptKey m.scripts with
    | none => exact hlk
    | some v =>
      have hv : ¬ (v = []) := fun he => hval (he ▸ hlk)
      simp only [hv, if_false]
      exact lookupKV_eraseKV_self hnodup
  · intro k hk
    unfold removeStartupScript
    cases hlk : lookupKV startupScriptKey m.scripts with
    | none => rfl
    | some v =>
      have hv : ¬ (v = []) := fun he => hval (he ▸ hlk)
      simp only [hv, if_false]
      exact lookupKV_eraseKV_ne hk m.scripts
  · unfold removeStartupScript
    cases lookupKV startupScriptKey m.scripts with
    | none => rfl
    | some v =>
      by_cases hv : v = [] <;> simp [hv]
  · unfold removeStartupScript
    cases lookupKV startupScriptKey m.scripts with
    | none => rfl
    | some v =>
      by_cases hv : v = [] <;> simp [hv]
  · unfold removeStartupScript
    cases lookupKV startupScriptKey m.scripts with
    | none => rfl
    | some v =>
      by_cases hv : v = [] <;> simp [hv]

/-- Witness for C7 at the template manifest and the §8 scenario inputs. -/
theorem startup_cleanup_last_and_frame_witness :
    lookupKV startupScriptKey (removeStartupScript templateManifest).scripts = none :=
  (startup_cleanup_last_and_frame startupExampleInputs templateManifest
    (by decide) (by decide)).2.2.1
